import Mathlib

/-!
Verification of the lovable-cpanel build pipeline.

The development shallowly embeds the pipeline of
`app/processor.py` (package locator, framework detection, source patcher,
build-output resolution, HTML/CSS URL normalization, archiver, and the
`process_lovable_zip` orchestration) and the queue/worker/ETA logic of
`app/main.py` (task queue, worker loop, `_eta_for`, `_queue_position`,
`_avg_duration`, `task_status`, `task_download`).

Modelling conventions:
- Text is `String`, manipulated through its `List Char` data so that all
  definitions evaluate inside the kernel.
- Each Python regular expression used by the source is embedded as a
  dedicated matcher returning the length of the match at the head of the
  input; global/first substitution is a fuel-indexed left-to-right scan,
  which is exactly the semantics of `re.sub` for the non-empty,
  non-overlapping patterns the source uses.
- The file system is a finite map from paths (segment lists, relative to
  the extraction root) to file contents, plus a list of directories; the
  enumeration order of `files` models the `rglob` traversal order.
- Machine floats of the ETA computation are modelled as rationals; the
  properties at stake are branch structure and exact arithmetic identities,
  not rounding.
- External effects (`npm` subprocess invocations) are abstracted as an
  explicit function argument of the pipeline.
-/

namespace LovCp

/-! ## Characters and strings -/

/-- Python regex `\s` / `str.strip()` whitespace (ASCII range). -/
def isPyWs (c : Char) : Bool :=
  c = ' ' || c = '\t' || c = '\n' || c = '\r' || c = '\x0b' || c = '\x0c'

/-- A single or double quote, the character class `["\']`. -/
def isQuoteCh (c : Char) : Bool := c = '"' || c = '\''

/-- ASCII code-point classes used by the regex character sets. -/
def lowerAlpha (c : Char) : Bool := 97 ≤ c.toNat && c.toNat ≤ 122

def upperAlpha (c : Char) : Bool := 65 ≤ c.toNat && c.toNat ≤ 90

def digitCh (c : Char) : Bool := 48 ≤ c.toNat && c.toNat ≤ 57

/-- ASCII lower-casing, as used by `str.lower()` on the URL prefixes. -/
def lowerChar (c : Char) : Char :=
  if upperAlpha c then Char.ofNat (c.toNat + 32) else c

/-- Python regex `\w`. -/
def wordChar (c : Char) : Bool :=
  lowerAlpha c || upperAlpha c || digitCh c || c = '_'

/-- `str.strip()` (whitespace on both ends). -/
def pyStripList (cs : List Char) : List Char :=
  ((cs.dropWhile isPyWs).reverse.dropWhile isPyWs).reverse

/-- `str.strip(c)` for a single character `c`. -/
def stripCharBoth (c : Char) (cs : List Char) : List Char :=
  ((cs.dropWhile (· = c)).reverse.dropWhile (· = c)).reverse

/-- Substring membership, Python's `pat in s` (char-list core). -/
def containsSubAux (pat : List Char) : Nat → List Char → Bool
  | 0, cs => pat.isPrefixOf cs
  | fuel+1, cs =>
    pat.isPrefixOf cs ||
      match cs with
      | [] => false
      | _ :: rest => containsSubAux pat fuel rest

/-- Substring membership, Python's `pat in s`. -/
def containsSub (s pat : String) : Bool :=
  containsSubAux pat.data s.data.length s.data

/-- Lexicographic comparison of char lists by code point, Python's `str <=`. -/
def strListLe : List Char → List Char → Bool
  | [], _ => true
  | _ :: _, [] => false
  | a :: as, b :: bs => if a = b then strListLe as bs else decide (a.toNat ≤ b.toNat)

/-- Lexicographic `<=` on strings by code point. -/
def strLe (a b : String) : Bool := strListLe a.data b.data

/-! ## The substitution engine

A `Matcher` reports the length of the (unique, greedy) match of its
pattern at the head of the input, or `none`.  All patterns taken from the
source match at least one character, so a returned `0` is treated as no
match.  `subAllAux` is `re.sub` (global, leftmost, non-overlapping),
`subFirstAux` is `re.sub(..., count=1)`, `subAllCountAux` is `re.subn`,
and `searchAux` is `re.search`.  The fuel is one more than the input
length, which the scan never exhausts since every step consumes at least
one character. -/

abbrev Matcher := List Char → Option Nat

def subAllAux (m : Matcher) (rep : List Char → List Char) :
    Nat → List Char → List Char
  | 0, cs => cs
  | fuel+1, cs =>
    match cs with
    | [] => []
    | c :: rest =>
      match m cs with
      | some (n+1) => rep (cs.take (n+1)) ++ subAllAux m rep fuel (cs.drop (n+1))
      | _ => c :: subAllAux m rep fuel rest

def subAllCountAux (m : Matcher) (rep : List Char → List Char) :
    Nat → List Char → List Char × Nat
  | 0, cs => (cs, 0)
  | fuel+1, cs =>
    match cs with
    | [] => ([], 0)
    | c :: rest =>
      match m cs with
      | some (n+1) =>
        let r := subAllCountAux m rep fuel (cs.drop (n+1))
        (rep (cs.take (n+1)) ++ r.1, r.2 + 1)
      | _ =>
        let r := subAllCountAux m rep fuel rest
        (c :: r.1, r.2)

def subFirstAux (m : Matcher) (rep : List Char → List Char) :
    Nat → List Char → List Char
  | 0, cs => cs
  | fuel+1, cs =>
    match cs with
    | [] => []
    | c :: rest =>
      match m cs with
      | some (n+1) => rep (cs.take (n+1)) ++ cs.drop (n+1)
      | _ => c :: subFirstAux m rep fuel rest

def searchAux (m : Matcher) : Nat → List Char → Bool
  | 0, cs => (m cs).isSome
  | fuel+1, cs =>
    (m cs).isSome ||
      match cs with
      | [] => false
      | _ :: rest => searchAux m fuel rest

/-- `re.sub(pattern, rep, s)` (global). -/
def pySubAll (m : Matcher) (rep : List Char → List Char) (s : String) : String :=
  ⟨subAllAux m rep (s.data.length + 1) s.data⟩

/-- `re.subn(pattern, rep, s)`. -/
def pySubCount (m : Matcher) (rep : List Char → List Char) (s : String) :
    String × Nat :=
  let r := subAllCountAux m rep (s.data.length + 1) s.data
  (⟨r.1⟩, r.2)

/-- `re.sub(pattern, rep, s, count=1)`. -/
def pySubFirst (m : Matcher) (rep : List Char → List Char) (s : String) : String :=
  ⟨subFirstAux m rep (s.data.length + 1) s.data⟩

/-- `re.search(pattern, s) is not None`. -/
def pySearch (m : Matcher) (s : String) : Bool :=
  searchAux m s.data.length s.data

/-! ## Matcher combinators

A matcher state is the remaining input plus the number of characters
consumed so far. -/

abbrev MSt := List Char × Nat

/-- Consume a literal. -/
def eatStr (lit : String) (st : MSt) : Option MSt :=
  if lit.data.isPrefixOf st.1 then
    some (st.1.drop lit.data.length, st.2 + lit.data.length)
  else none

/-- Consume a literal case-insensitively (`re.I` on a letters-only literal). -/
def eatStrCI (lit : String) (st : MSt) : Option MSt :=
  let l := lit.data
  if (st.1.take l.length).map lowerChar = l.map lowerChar then
    some (st.1.drop l.length, st.2 + l.length)
  else none

/-- Consume one character of a class. -/
def eatCharP (p : Char → Bool) (st : MSt) : Option MSt :=
  match st.1 with
  | c :: rest => if p c then some (rest, st.2 + 1) else none
  | [] => none

/-- Greedily consume a character class star (`p*`); always succeeds. -/
def eatStarP (p : Char → Bool) (st : MSt) : MSt :=
  let run := st.1.takeWhile p
  (st.1.drop run.length, st.2 + run.length)

/-- Greedily consume a character class plus (`p+`). -/
def eatPlusP (p : Char → Bool) (st : MSt) : Option MSt :=
  let run := st.1.takeWhile p
  if run.length = 0 then none else some (st.1.drop run.length, st.2 + run.length)

/-- An optional group `(?: ... )?`. -/
def eatOpt (f : MSt → Option MSt) (st : MSt) : MSt := (f st).getD st

/-! ## The concrete patterns of the source -/

/-- Plain literal matcher; `str.replace(lit, _)` is `pySubAll (mLit lit) _`. -/
def mLit (lit : String) : Matcher := fun cs =>
  if lit.data.isPrefixOf cs then some lit.data.length else none

/-- `base\s*:\s*["\']/[^"\']*/["\']` (processor.py `_ensure_vite_config`).
After `["\']/` the star `[^"\']*` cannot cross a quote, so the final
`/["\']` forces: the first quote after the opening slash is immediately
preceded by a `/`. -/
def mViteBase : Matcher := fun cs => do
  let st ← eatStr "base" (cs, 0)
  let st := eatStarP isPyWs st
  let st ← eatStr ":" st
  let st := eatStarP isPyWs st
  let st ← eatCharP isQuoteCh st
  let st ← eatStr "/" st
  let run := st.1.takeWhile (fun c => ¬ isQuoteCh c)
  if run.getLast? = some '/' then
    match st.1.drop run.length with
    | q :: _ => if isQuoteCh q then some (st.2 + run.length + 1) else none
    | [] => none
  else none

/-- `defineConfig\(\s*(?:\(\s*\w+\s*\)\s*=>\s*)?\{\s*` (vite config injection
point).  If the optional arrow-function group fails, the brace must stand
where the group would have started, so no backtracking is needed. -/
def mDefineConfig : Matcher := fun cs => do
  let st ← eatStr "defineConfig(" (cs, 0)
  let st := eatStarP isPyWs st
  let st := eatOpt (fun s => do
      let s ← eatStr "(" s
      let s := eatStarP isPyWs s
      let s ← eatPlusP wordChar s
      let s := eatStarP isPyWs s
      let s ← eatStr ")" s
      let s := eatStarP isPyWs s
      let s ← eatStr "=>" s
      pure (eatStarP isPyWs s)) st
  let st ← eatStr "\x7b" st
  pure (eatStarP isPyWs st).2

/-- `from\s+[\'"]react-router-dom[\'"]` (hash-router detection). -/
def mFromRRD : Matcher := fun cs => do
  let st ← eatStr "from" (cs, 0)
  let st ← eatPlusP isPyWs st
  let st ← eatCharP isQuoteCh st
  let st ← eatStr "react-router-dom" st
  let st ← eatCharP isQuoteCh st
  pure st.2

/-- `import\s*{\s*` (named-import injection point). -/
def mImportBrace : Matcher := fun cs => do
  let st ← eatStr "import" (cs, 0)
  let st := eatStarP isPyWs st
  let st ← eatStr "\x7b" st
  pure (eatStarP isPyWs st).2

/-- `<App\s*/>` (root element, self-closing). -/
def mAppSelfClose : Matcher := fun cs => do
  let st ← eatStr "<App" (cs, 0)
  let st := eatStarP isPyWs st
  let st ← eatStr "/>" st
  pure st.2

/-- `<App\s*>\s*</App\s*>` (root element, open/close pair). -/
def mAppOpenClose : Matcher := fun cs => do
  let st ← eatStr "<App" (cs, 0)
  let st := eatStarP isPyWs st
  let st ← eatStr ">" st
  let st := eatStarP isPyWs st
  let st ← eatStr "</App" st
  let st := eatStarP isPyWs st
  let st ← eatStr ">" st
  pure st.2

/-- `import\s*{\s*BrowserRouter\s*(?:,\s*)?` (`_remove_browserrouter`). -/
def mImportBraceBR : Matcher := fun cs => do
  let st ← eatStr "import" (cs, 0)
  let st := eatStarP isPyWs st
  let st ← eatStr "\x7b" st
  let st := eatStarP isPyWs st
  let st ← eatStr "BrowserRouter" st
  let st := eatStarP isPyWs st
  let st := eatOpt (fun s => (eatStr "," s).map (eatStarP isPyWs)) st
  pure st.2

/-- `,\s*BrowserRouter\s*}`. -/
def mCommaBR : Matcher := fun cs => do
  let st ← eatStr "," (cs, 0)
  let st := eatStarP isPyWs st
  let st ← eatStr "BrowserRouter" st
  let st := eatStarP isPyWs st
  let st ← eatStr "\x7d" st
  pure st.2

/-- `import\s+BrowserRouter\s+from\s+[\'"]react-router-dom[\'"]\s*;?\s*`. -/
def mImportBRFrom : Matcher := fun cs => do
  let st ← eatStr "import" (cs, 0)
  let st ← eatPlusP isPyWs st
  let st ← eatStr "BrowserRouter" st
  let st ← eatPlusP isPyWs st
  let st ← eatStr "from" st
  let st ← eatPlusP isPyWs st
  let st ← eatCharP isQuoteCh st
  let st ← eatStr "react-router-dom" st
  let st ← eatCharP isQuoteCh st
  let st := eatStarP isPyWs st
  let st := eatOpt (eatStr ";") st
  pure (eatStarP isPyWs st).2

/-- `<\s*BrowserRouter[^>]*>`. -/
def mBROpen : Matcher := fun cs => do
  let st ← eatStr "<" (cs, 0)
  let st := eatStarP isPyWs st
  let st ← eatStr "BrowserRouter" st
  let st := eatStarP (· ≠ '>') st
  let st ← eatStr ">" st
  pure st.2

/-- `</\s*BrowserRouter\s*>`. -/
def mBRClose : Matcher := fun cs => do
  let st ← eatStr "</" (cs, 0)
  let st := eatStarP isPyWs st
  let st ← eatStr "BrowserRouter" st
  let st := eatStarP isPyWs st
  let st ← eatStr ">" st
  pure st.2

/-- `basePath\s*:\s*["\'][^"\']*["\']` (`_patch_next`). -/
def mNextBasePath : Matcher := fun cs => do
  let st ← eatStr "basePath" (cs, 0)
  let st := eatStarP isPyWs st
  let st ← eatStr ":" st
  let st := eatStarP isPyWs st
  let st ← eatCharP isQuoteCh st
  let st := eatStarP (fun c => ¬ isQuoteCh c) st
  let st ← eatCharP isQuoteCh st
  pure st.2

/-- `assetPrefix\s*:\s*["\'][^"\']*["\']`. -/
def mNextAssetPrefix : Matcher := fun cs => do
  let st ← eatStr "assetPrefix" (cs, 0)
  let st := eatStarP isPyWs st
  let st ← eatStr ":" st
  let st := eatStarP isPyWs st
  let st ← eatCharP isQuoteCh st
  let st := eatStarP (fun c => ¬ isQuoteCh c) st
  let st ← eatCharP isQuoteCh st
  pure st.2

/-- `module\.exports\s*=\s*\{`. -/
def mModuleExports : Matcher := fun cs => do
  let st ← eatStr "module.exports" (cs, 0)
  let st := eatStarP isPyWs st
  let st ← eatStr "=" st
  let st := eatStarP isPyWs st
  let st ← eatStr "\x7b" st
  pure st.2

/-- `export\s+default\s*\{`. -/
def mExportDefault : Matcher := fun cs => do
  let st ← eatStr "export" (cs, 0)
  let st ← eatPlusP isPyWs st
  let st ← eatStr "default" st
  let st := eatStarP isPyWs st
  let st ← eatStr "\x7b" st
  pure st.2

/-- `(src|href)\s*=\s*(q)([^q]+)(q)` with `re.I`, for quote character `q`
(`_sanity_html_css`). -/
def mAttrUrl (q : Char) : Matcher := fun cs =>
  match (eatStrCI "src" (cs, 0)).orElse (fun _ => eatStrCI "href" (cs, 0)) with
  | none => none
  | some st => do
    let st := eatStarP isPyWs st
    let st ← eatStr "=" st
    let st := eatStarP isPyWs st
    let st ← eatCharP (· = q) st
    let st ← eatPlusP (· ≠ q) st
    let st ← eatCharP (· = q) st
    pure st.2

/-- `url\(([^)]+)\)` with `re.I`. -/
def mCssUrl : Matcher := fun cs => do
  let st ← eatStrCI "url(" (cs, 0)
  let st ← eatPlusP (· ≠ ')') st
  let st ← eatStr ")" st
  pure st.2

/-- `^\s*import[^\n]*\n` at a line start (`re.M`): the leading `\s*` run
(which may cross newlines) followed by `import`, then the rest of that
line including its newline. -/
def importLineMatch : Matcher := fun cs =>
  let ws := cs.takeWhile isPyWs
  let rest := cs.drop ws.length
  if "import".data.isPrefixOf rest then
    let rest2 := rest.drop 6
    let line := rest2.takeWhile (· ≠ '\n')
    match rest2.drop line.length with
    | '\n' :: _ => some (ws.length + 6 + line.length + 1)
    | _ => none
  else none

/-- `re.sub(r'(^\s*import[^\n]*\n)', r'\1' + insert, t, count=1, flags=re.M)`:
try the pattern at position 0 and after every newline, leftmost first,
and append `insert` after the first match. -/
def subImportLineAux (insert : List Char) : Nat → Bool → List Char → Option (List Char)
  | 0, _, _ => none
  | fuel+1, atStart, cs =>
    match if atStart then importLineMatch cs else none with
    | some n => some (cs.take n ++ insert ++ cs.drop n)
    | none =>
      match cs with
      | [] => none
      | c :: rest => (subImportLineAux insert fuel (c = '\n') rest).map (c :: ·)

/-- The multiline first-import substitution of `_ensure_hashrouter`. -/
def subImportLineOnce (insert : String) (t : String) : String :=
  ((subImportLineAux insert.data (t.data.length + 1) true t.data).map
    fun l => (⟨l⟩ : String)).getD t

/-! ## URL normalization (`_is_safe`, `_strip_leading`, `_sanity_html_css`) -/

/-- `SAFE_PREFIXES` of processor.py. -/
def SAFE_PREFIXES : List String :=
  ["http://", "https://", "//", "data:", "mailto:", "tel:"]

/-- `_is_safe(u)`: `u.strip().lower().startswith(SAFE_PREFIXES)`. -/
def is_safe (u : String) : Bool :=
  let t := (pyStripList u.data).map lowerChar
  SAFE_PREFIXES.any (fun p => p.data.isPrefixOf t)

/-- `_strip_leading(u)`: keep empty and safe values; for a root-relative
value drop every leading `/` (`u.lstrip("/")`). -/
def strip_leading (u : String) : String :=
  if u.data = [] then u
  else if is_safe u then u
  else if u.data.headD ' ' = '/' then ⟨u.data.dropWhile (· = '/')⟩
  else u

/-- Replacement for an HTML `src`/`href` match: re-emit
`{attr}={q}{fixed}{q}` where `fixed` is the normalized value. -/
def replAttrUrl (q : Char) (m : List Char) : List Char :=
  let attr := m.takeWhile (fun c => ¬ (isPyWs c || c = '='))
  let afterQ := (m.dropWhile (· ≠ q)).drop 1
  let url := afterQ.dropLast
  attr ++ ('=' :: q :: (strip_leading ⟨url⟩).data) ++ [q]

/-- Replacement for a CSS `url(...)` match: strip quotes/whitespace from
the inner group, normalize, and re-quote as the source does. -/
def replCssUrl (m : List Char) : List Char :=
  let g1 := (m.drop 4).dropLast
  let inner := stripCharBoth '\'' (stripCharBoth '"' (pyStripList g1))
  let fixed := (strip_leading ⟨inner⟩).data
  if g1.contains '"' then "url(\"".data ++ fixed ++ "\")".data
  else if g1.contains '\'' then "url('".data ++ fixed ++ "')".data
  else "url(".data ++ fixed ++ [')']

/-- The per-file HTML pass of `_sanity_html_css`: the double-quote
substitution followed by the single-quote substitution. -/
def sanityHtmlText (s : String) : String :=
  pySubAll (mAttrUrl '\'') (replAttrUrl '\'')
    (pySubAll (mAttrUrl '"') (replAttrUrl '"') s)

/-- The per-file CSS pass of `_sanity_html_css`. -/
def sanityCssText (s : String) : String :=
  pySubAll mCssUrl replCssUrl s

/-! ## The router patches as text transforms -/

/-- The transform of `_ensure_hashrouter` (processor.py lines 101-110). -/
def hashrouter_tf (t : String) : String :=
  let t1 :=
    if pySearch mFromRRD t && ¬ containsSub t "HashRouter" then
      pySubFirst mImportBrace (fun _ => "import \x7b HashRouter, ".data) t
    else if ¬ containsSub t "react-router-dom" then
      subImportLineOnce "import \x7b HashRouter \x7d from \"react-router-dom\";\n" t
    else t
  let t2 := pySubAll (mLit "BrowserRouter") (fun _ => "HashRouter".data) t1
  let t3 := pySubAll mAppSelfClose
    (fun m => "<HashRouter>".data ++ m ++ "</HashRouter>".data) t2
  pySubAll mAppOpenClose
    (fun m => "<HashRouter>".data ++ m ++ "</HashRouter>".data) t3

/-- The transform of `_remove_browserrouter` (processor.py lines 118-125). -/
def browserrouter_tf (t : String) : String :=
  let t1 := pySubAll mImportBraceBR (fun _ => "import \x7b ".data) t
  let t2 := pySubAll mCommaBR (fun _ => "\x7d".data) t1
  let t3 := pySubAll mImportBRFrom (fun _ => []) t2
  let t4 := pySubAll mBROpen (fun _ => "<>".data) t3
  pySubAll mBRClose (fun _ => "</>".data) t4

/-- The transform applied by `_ensure_vite_config` to an existing config
file: rewrite an existing `base:` assignment, else inject one at the
`defineConfig({` opening. -/
def vite_tf (slug : String) (t : String) : String :=
  let desired := "base: \"/" ++ slug ++ "/\""
  let r := pySubCount mViteBase (fun _ => desired.data) t
  if r.2 = 0 then
    pySubFirst mDefineConfig (fun m => m ++ (desired ++ ", ").data) t
  else r.1

/-- The transform applied by `_patch_next` to a next config file. -/
def next_tf (slug : String) (t : String) : String :=
  if containsSub t "basePath" || containsSub t "assetPrefix" then
    let t1 := pySubAll mNextBasePath
      (fun _ => ("basePath: \"/" ++ slug ++ "\"").data) t
    pySubAll mNextAssetPrefix
      (fun _ => ("assetPrefix: \"/" ++ slug ++ "/\"").data) t1
  else
    let inj := "\n  basePath: \"/" ++ slug ++ "\",\n  assetPrefix: \"/" ++ slug ++ "/\","
    let t1 := pySubFirst mModuleExports (fun m => m ++ inj.data) t
    pySubFirst mExportDefault (fun m => m ++ inj.data) t1

/-! ## JSON (`json.loads` / `json.dumps` as used by `_read_json` and the
manifest patches)

The manifest values the pipeline reads and writes are objects, strings,
booleans, arrays and integers.  Non-integer JSON numbers are outside the
model's scope (a manifest with a float literal makes the embedded parse
fail where `json.loads` would succeed); likewise a raw control character
is simply rejected.  Both divergences are unreachable for the manifests
the claims exercise. -/

inductive JVal where
  | jnull
  | jbool (b : Bool)
  | jnum (n : Int)
  | jstr (s : String)
  | jarr (xs : List JVal)
  | jobj (kvs : List (String × JVal))

/-- JSON whitespace (`json.loads` accepts exactly these four). -/
def isJsonWs (c : Char) : Bool := c = ' ' || c = '\t' || c = '\n' || c = '\r'

def skipWsJ (cs : List Char) : List Char := cs.dropWhile isJsonWs

def hexDigitVal (c : Char) : Option Nat :=
  if digitCh c then some (c.toNat - 48)
  else if 97 ≤ c.toNat && c.toNat ≤ 102 then some (c.toNat - 87)
  else if 65 ≤ c.toNat && c.toNat ≤ 70 then some (c.toNat - 55)
  else none

/-- Body of a JSON string after the opening quote; returns the decoded
content and the input after the closing quote. -/
def parseStringBody : Nat → List Char → Option (List Char × List Char)
  | 0, _ => none
  | fuel+1, cs =>
    match cs with
    | [] => none
    | '"' :: rest => some ([], rest)
    | '\\' :: e :: rest =>
      let cont := fun (c : Char) (r : List Char) =>
        (parseStringBody fuel r).map (fun pr => (c :: pr.1, pr.2))
      if e = '"' then cont '"' rest
      else if e = '\\' then cont '\\' rest
      else if e = '/' then cont '/' rest
      else if e = 'n' then cont '\n' rest
      else if e = 't' then cont '\t' rest
      else if e = 'r' then cont '\r' rest
      else if e = 'b' then cont '\x08' rest
      else if e = 'f' then cont '\x0c' rest
      else if e = 'u' then
        match rest with
        | h1 :: h2 :: h3 :: h4 :: rest2 => do
          let n1 ← hexDigitVal h1
          let n2 ← hexDigitVal h2
          let n3 ← hexDigitVal h3
          let n4 ← hexDigitVal h4
          cont (Char.ofNat (n1 * 4096 + n2 * 256 + n3 * 16 + n4)) rest2
        | _ => none
      else none
    | c :: rest => if c.toNat < 32 then none else
        (parseStringBody fuel rest).map (fun pr => (c :: pr.1, pr.2))

/-- A JSON integer literal (the modelled number subset). -/
def parseNum (cs : List Char) : Option (Int × List Char) :=
  let neg := cs.headD ' ' = '-'
  let cs1 := if neg then cs.drop 1 else cs
  let digs := cs1.takeWhile digitCh
  if digs.length = 0 then none
  else
    let rest := cs1.drop digs.length
    match rest with
    | '.' :: _ => none
    | 'e' :: _ => none
    | 'E' :: _ => none
    | _ =>
      let n : Nat := digs.foldl (fun a c => a * 10 + (c.toNat - 48)) 0
      some (if neg then -(n : Int) else (n : Int), rest)

/-- Recursive-descent JSON value parser, structurally recursive on fuel so
that it evaluates inside the kernel.  The reserved control characters
`\x01`/`\x02` mark an object/array continuation that still requires at
least one member/element (they cannot occur in a JSON document `json.loads`
accepts, which rejects raw control characters). -/
def parseVal : Nat → List Char → Option (JVal × List Char)
  | 0, _ => none
  | fuel+1, cs0 =>
    let cs := skipWsJ cs0
    match cs with
    | '\x7b' :: rest =>
      (match skipWsJ rest with
      | '\x7d' :: r => some (.jobj [], r)
      | r => parseVal fuel ('\x01' :: r))
    | '\x01' :: rest =>
      (match rest with
      | '"' :: r => do
        let (key, r1) ← parseStringBody (r.length + 1) r
        match skipWsJ r1 with
        | ':' :: r2 =>
          match parseVal fuel r2 with
          | some (v, r3) =>
            (match skipWsJ r3 with
            | ',' :: r4 =>
              (match parseVal fuel ('\x01' :: skipWsJ r4) with
              | some (.jobj kvs, r5) => some (.jobj ((⟨key⟩, v) :: kvs), r5)
              | _ => none)
            | '\x7d' :: r4 => some (.jobj [(⟨key⟩, v)], r4)
            | _ => none)
          | none => none
        | _ => none
      | _ => none)
    | '[' :: rest =>
      (match skipWsJ rest with
      | ']' :: r => some (.jarr [], r)
      | r => parseVal fuel ('\x02' :: r))
    | '\x02' :: rest =>
      (match parseVal fuel rest with
      | some (v, r1) =>
        (match skipWsJ r1 with
        | ',' :: r2 =>
          (match parseVal fuel ('\x02' :: skipWsJ r2) with
          | some (.jarr xs, r3) => some (.jarr (v :: xs), r3)
          | _ => none)
        | ']' :: r2 => some (.jarr [v], r2)
        | _ => none)
      | none => none)
    | '"' :: rest =>
      (parseStringBody (rest.length + 1) rest).map
        (fun pr => (JVal.jstr ⟨pr.1⟩, pr.2))
    | 't' :: rest =>
      if ['r', 'u', 'e'].isPrefixOf rest then some (.jbool true, rest.drop 3) else none
    | 'f' :: rest =>
      if ['a', 'l', 's', 'e'].isPrefixOf rest then some (.jbool false, rest.drop 4)
      else none
    | 'n' :: rest =>
      if ['u', 'l', 'l'].isPrefixOf rest then some (.jnull, rest.drop 3) else none
    | _ => (parseNum cs).map (fun pr => (JVal.jnum pr.1, pr.2))

/-- `json.loads`: parse one value, then require only whitespace to follow. -/
def pyJsonLoads (s : String) : Option JVal :=
  match parseVal (2 * s.data.length + 4) s.data with
  | some (v, rest) => if skipWsJ rest = [] then some v else none
  | none => none

/-- `json.dumps` string escaping (with `ensure_ascii=False`). -/
def escJsonChar (c : Char) : List Char :=
  if c = '"' then ['\\', '"']
  else if c = '\\' then ['\\', '\\']
  else if c = '\n' then ['\\', 'n']
  else if c = '\t' then ['\\', 't']
  else if c = '\r' then ['\\', 'r']
  else if c = '\x08' then ['\\', 'b']
  else if c = '\x0c' then ['\\', 'f']
  else if c.toNat < 32 then
    ['\\', 'u', '0', '0', hexDigitCh (c.toNat / 16), hexDigitCh (c.toNat % 16)]
  else [c]
where
  /-- The lowercase hex digit for a value below 16. -/
  hexDigitCh (d : Nat) : Char :=
    if d < 10 then Char.ofNat (48 + d) else Char.ofNat (87 + d)

def jsonQuote (s : String) : String :=
  ⟨'"' :: s.data.foldr (fun c acc => escJsonChar c ++ acc) ['"']⟩

def indentStr (n : Nat) : String := ⟨List.replicate n ' '⟩

mutual
/-- `json.dumps(v, indent=2, ensure_ascii=False)` at nesting level `lvl`. -/
def jsonDumpVal (lvl : Nat) : JVal → String
  | .jnull => "null"
  | .jbool b => if b then "true" else "false"
  | .jnum n => toString n
  | .jstr s => jsonQuote s
  | .jarr [] => "[]"
  | .jarr (x :: xs) =>
    "[\n" ++ indentStr (2 * (lvl + 1)) ++ jsonDumpVal (lvl + 1) x ++
      jsonDumpArr (lvl + 1) xs ++ "\n" ++ indentStr (2 * lvl) ++ "]"
  | .jobj [] => "\x7b\x7d"
  | .jobj (kv :: kvs) =>
    "\x7b\n" ++ indentStr (2 * (lvl + 1)) ++ jsonQuote kv.1 ++ ": " ++
      jsonDumpVal (lvl + 1) kv.2 ++ jsonDumpObj (lvl + 1) kvs ++ "\n" ++
      indentStr (2 * lvl) ++ "\x7d"
def jsonDumpArr (lvl : Nat) : List JVal → String
  | [] => ""
  | x :: xs =>
    ",\n" ++ indentStr (2 * lvl) ++ jsonDumpVal lvl x ++ jsonDumpArr lvl xs
def jsonDumpObj (lvl : Nat) : List (String × JVal) → String
  | [] => ""
  | kv :: kvs =>
    ",\n" ++ indentStr (2 * lvl) ++ jsonQuote kv.1 ++ ": " ++
      jsonDumpVal lvl kv.2 ++ jsonDumpObj lvl kvs
end

def pyJsonDumps (v : JVal) : String := jsonDumpVal 0 v

/-- Key lookup in a JSON object (`d.get(k)` on a dict; `none` otherwise). -/
def jGet (v : JVal) (k : String) : Option JVal :=
  match v with
  | .jobj kvs => (kvs.find? (fun kv => kv.1 == k)).map (·.2)
  | _ => none

/-- Dict assignment `d[k] = x`: update in place, preserving insertion
order, else append.  On a non-object the source would have crashed
earlier; the model leaves it unchanged. -/
def jobjSet (v : JVal) (k : String) (x : JVal) : JVal :=
  match v with
  | .jobj kvs =>
    if kvs.any (fun kv => kv.1 == k) then
      .jobj (kvs.map (fun kv => if kv.1 == k then (kv.1, x) else kv))
    else .jobj (kvs ++ [(k, x)])
  | other => other

/-- `_has_dep(pkg, pkgjson)`: membership of `pkg` in any of the three
dependency maps.  (If a dependency key held a non-object, Python's `in`
would test something else entirely; the model answers `false`, which the
claims never exercise.) -/
def has_dep (pkg : String) (pkgjson : JVal) : Bool :=
  ["dependencies", "devDependencies", "peerDependencies"].any (fun key =>
    match jGet pkgjson key with
    | some (.jobj kvs) => kvs.any (fun kv => kv.1 == pkg)
    | _ => false)

/-! ## The file system

Paths are segment lists relative to the extraction root.  `files` maps
paths of regular files to their textual contents, in the enumeration
order that models `rglob`/`os.scandir` traversal; `dirs` lists the
directories. -/

abbrev FPath := List String

structure FS where
  files : List (FPath × String)
  dirs : List FPath
deriving DecidableEq

/-- `Path.read_text` (both encodings read the same modelled text). -/
def fsRead (fs : FS) (p : FPath) : Option String :=
  (fs.files.find? (fun e => e.1 == p)).map (·.2)

/-- `Path.write_text`: overwrite in place, or create at the end of the
enumeration order. -/
def fsWrite (fs : FS) (p : FPath) (s : String) : FS :=
  if fs.files.any (fun e => e.1 == p) then
    ⟨fs.files.map (fun e => if e.1 == p then (p, s) else e), fs.dirs⟩
  else ⟨fs.files ++ [(p, s)], fs.dirs⟩

/-- `Path.exists()`: true for a regular file or a directory. -/
def pathExists (fs : FS) (p : FPath) : Bool :=
  fs.files.any (fun e => e.1 == p) || fs.dirs.contains p

/-- `_read_json(p)`: `{}` when the file is missing or does not parse. -/
def read_json (fs : FS) (p : FPath) : JVal :=
  match fsRead fs p with
  | none => .jobj []
  | some s => (pyJsonLoads s).getD (.jobj [])

/-- `_patch_file_text(p, transform)`: read, transform, write back only on
change; reports whether a write happened. -/
def patch_file_text (fs : FS) (p : FPath) (tf : String → String) : FS × Bool :=
  match fsRead fs p with
  | none => (fs, false)
  | some txt =>
    let new := tf txt
    if new ≠ txt then (fsWrite fs p new, true) else (fs, false)

/-! ## Project locator (`_find_project_root`) -/

/-- All paths (files, then directories) whose final segment is `name`:
the result set of `base.rglob(name)`. -/
def rglobNamed (fs : FS) (name : String) : List FPath :=
  (fs.files.map Prod.fst ++ fs.dirs).filter (fun p => p.getLast? = some name)

/-- Candidate project roots: parents of every `package.json` whose path
has no `node_modules` segment. -/
def packageJsonDirs (fs : FS) : List FPath :=
  ((rglobNamed fs "package.json").filter
    (fun p => !(p.contains "node_modules"))).map List.dropLast

/-- The bundler/framework config filenames that earn the +10 bonus. -/
def configFiles : List String :=
  ["vite.config.ts", "vite.config.js", "next.config.js", "next.config.mjs"]

/-- The candidate score: +10 for a directly contained config file, minus
the path depth. -/
def rootScore (fs : FS) (d : FPath) : Int :=
  (if configFiles.any (fun f => pathExists fs (d ++ [f])) then 10 else 0) - d.length

/-- `sorted(candidates, key=score, reverse=True)` — a stable descending
sort by score. -/
def sortCandidates (fs : FS) (l : List FPath) : List FPath :=
  l.insertionSort (fun a b => rootScore fs b ≤ rootScore fs a)

/-- `_find_project_root`: error when no manifest exists, else the first
candidate of the stable descending sort. -/
def find_project_root (fs : FS) : Except String FPath :=
  if packageJsonDirs fs = [] then .error "package.json não encontrado no ZIP."
  else .ok ((sortCandidates fs (packageJsonDirs fs)).headD [])

/-! ## Framework detection and the source patcher -/

/-- `_detect_framework`. -/
def detect_framework (fs : FS) (root : FPath) : String :=
  let pkg := read_json fs (root ++ ["package.json"])
  if pathExists fs (root ++ ["vite.config.ts"]) ||
      pathExists fs (root ++ ["vite.config.js"]) || has_dep "vite" pkg then "vite"
  else if has_dep "next" pkg || pathExists fs (root ++ ["next.config.js"]) ||
      pathExists fs (root ++ ["next.config.mjs"]) then "next"
  else if has_dep "react-scripts" pkg then "cra"
  else "unknown"

/-- `(root/"src").glob("**/*.ts*")` is non-empty: some entry strictly
below `root/src` whose name contains `.ts`. -/
def anyTsUnderSrc (fs : FS) (root : FPath) : Bool :=
  (fs.files.map Prod.fst ++ fs.dirs).any (fun p =>
    (root ++ ["src"]).isPrefixOf p && p.length > root.length + 1 &&
      containsSub (p.getLastD "") ".ts")

/-- The config file synthesized by `_ensure_vite_config` when none exists. -/
def vite_config_content (hasReactPlugin : Bool) (slug : String) : String :=
  "import \x7b defineConfig \x7d from 'vite'\n" ++
  (if hasReactPlugin then "import react from '@vitejs/plugin-react'\n" else "") ++
  "\n" ++
  "export default defineConfig(\x7b\n" ++
  (if hasReactPlugin then "  plugins: [react()],\n" else "") ++
  "  base: '/" ++ slug ++ "/',\n" ++
  "\x7d)\n"

/-- `_ensure_vite_config`. -/
def ensure_vite_config (fs : FS) (root : FPath) (slug : String) : FS :=
  let pkg := read_json fs (root ++ ["package.json"])
  let useTs := pathExists fs (root ++ ["tsconfig.json"]) || anyTsUnderSrc fs root
  let fname := if useTs then "vite.config.ts" else "vite.config.js"
  let p := root ++ [fname]
  if ¬ pathExists fs p then
    fsWrite fs p (vite_config_content (has_dep "@vitejs/plugin-react" pkg) slug)
  else (patch_file_text fs p (vite_tf slug)).1

/-- One iteration of `_patch_next`'s filename loop; `some` when the config
was patched (after which the export script is installed and the loop
returns). -/
def patch_next_one (fs : FS) (root : FPath) (slug : String) (fn : String) :
    Option FS :=
  let p := root ++ [fn]
  if ¬ pathExists fs p then none
  else
    let r := patch_file_text fs p (next_tf slug)
    if r.2 then
      let pkgPath := root ++ ["package.json"]
      let pkg := read_json r.1 pkgPath
      let sc := match jGet pkg "scripts" with
        | some (.jobj kvs) => JVal.jobj kvs
        | _ => JVal.jobj []
      let sc2 := jobjSet sc "export" (.jstr "next build && next export -o dist")
      some (fsWrite r.1 pkgPath (pyJsonDumps (jobjSet pkg "scripts" sc2)))
    else none

/-- `_patch_next`. -/
def patch_next (fs : FS) (root : FPath) (slug : String) : FS :=
  match patch_next_one fs root slug "next.config.js" with
  | some fs2 => fs2
  | none => (patch_next_one fs root slug "next.config.mjs").getD fs

/-- `_patch_cra`. -/
def patch_cra (fs : FS) (root : FPath) (slug : String) : FS :=
  let pkgPath := root ++ ["package.json"]
  let pkg := read_json fs pkgPath
  let desired := "/" ++ slug
  let isSet := match jGet pkg "homepage" with
    | some (.jstr h) => h == desired
    | _ => false
  if isSet then fs
  else fsWrite fs pkgPath (pyJsonDumps (jobjSet pkg "homepage" (.jstr desired)))

/-- `_locate_src`: the first existing of `src`, `app`, `frontend/src`,
defaulting to `root/src`. -/
def locate_src (fs : FS) (root : FPath) : FPath :=
  match [["src"], ["app"], ["frontend", "src"]].find?
      (fun d => pathExists fs (root ++ d)) with
  | some d => root ++ d
  | none => root ++ ["src"]

/-- The entry-point filenames probed by `_ensure_hashrouter`. -/
def entryNames : List String :=
  ["main.tsx", "main.jsx", "index.tsx", "index.jsx",
   "main.ts", "main.js", "index.ts", "index.js"]

/-- `_ensure_hashrouter`: patch the first existing entry file. -/
def ensure_hashrouter (fs : FS) (src : FPath) : FS :=
  match entryNames.find? (fun n => pathExists fs (src ++ [n])) with
  | none => fs
  | some n => (patch_file_text fs (src ++ [n]) hashrouter_tf).1

/-- The top-level component filenames probed by `_remove_browserrouter`. -/
def appNames : List String := ["App.tsx", "App.jsx", "App.ts", "App.js"]

/-- `_remove_browserrouter`: patch every existing component file. -/
def remove_browserrouter (fs : FS) (src : FPath) : FS :=
  appNames.foldl (fun acc n =>
    if pathExists acc (src ++ [n]) then
      (patch_file_text acc (src ++ [n]) browserrouter_tf).1
    else acc) fs

/-- The framework-specific config patch of `process_lovable_zip`
(lines 219-221). -/
def apply_framework_patch (fw : String) (fs : FS) (root : FPath)
    (slug : String) : FS :=
  if fw = "vite" then ensure_vite_config fs root slug
  else if fw = "next" then patch_next fs root slug
  else if fw = "cra" then patch_cra fs root slug
  else fs

/-- The Source Patcher: detection, the framework config patch, then the
router patches (`process_lovable_zip` lines 218-223, given the root the
locator produced). -/
def source_patcher (slug : String) (fs : FS) (root : FPath) : FS :=
  let fw := detect_framework fs root
  let fs1 := apply_framework_patch fw fs root slug
  let src := locate_src fs1 root
  if pathExists fs1 src then remove_browserrouter (ensure_hashrouter fs1 src) src
  else fs1

/-! ## Build-output resolution (`_build`, after the external `npm` run) -/

/-- The output directory `_build` returns: the fixed name `dist` for
`next`; otherwise the first existing of `dist`, `build`, `out`, and
`root/dist` when none of them exists.  (The `npm` invocations themselves
are external subprocesses, modelled as the pipeline's `build` argument.) -/
def resolve_build_output (fs : FS) (root : FPath) (fw : String) : FPath :=
  if fw = "next" then root ++ ["dist"]
  else
    match ["dist", "build", "out"].find? (fun c => pathExists fs (root ++ [c])) with
    | some c => root ++ [c]
    | none => root ++ ["dist"]

/-! ## Output normalization over the build directory and `.htaccess` -/

/-- `p` is strictly below `root`. -/
def underDir (root p : FPath) : Bool := root.isPrefixOf p && p.length > root.length

/-- Python `str.endswith`. -/
def strEndsWith (s suffix : String) : Bool := suffix.data.isSuffixOf s.data

/-- `_vite_post_build_sanity`: plain replacements in `dist/index.html`. -/
def vite_post_build_sanity (fs : FS) (dist : FPath) : FS :=
  let idx := dist ++ ["index.html"]
  match fsRead fs idx with
  | none => fs
  | some s =>
    let s2 := pySubAll (mLit "src=\"/assets/") (fun _ => "src=\"assets/".data)
      (pySubAll (mLit "href=\"/assets/") (fun _ => "href=\"assets/".data) s)
    if s2 ≠ s then fsWrite fs idx s2 else fs

/-- `_sanity_html_css` over the build directory: rewrite every `*.html`
file with the HTML pass and every `*.css` file with the CSS pass.  (The
two `rglob` loops commute since they touch disjoint files; the model
applies them in one traversal.) -/
def sanity_html_css (fs : FS) (dist : FPath) : FS :=
  ⟨fs.files.map (fun e =>
      if underDir dist e.1 && strEndsWith (e.1.getLastD "") ".html" then
        (e.1, sanityHtmlText e.2)
      else if underDir dist e.1 && strEndsWith (e.1.getLastD "") ".css" then
        (e.1, sanityCssText e.2)
      else e),
   fs.dirs⟩

/-- The `.htaccess` rewrite rules written by `_write_htaccess`. -/
def htaccessText (slug : String) : String :=
  "DirectoryIndex index.html\n" ++
  "RewriteEngine On\n" ++
  "RewriteBase /" ++ slug ++ "/\n\n" ++
  "RewriteCond %\x7bREQUEST_FILENAME\x7d -f [OR]\n" ++
  "RewriteCond %\x7bREQUEST_FILENAME\x7d -d\n" ++
  "RewriteRule ^ - [L]\n\n" ++
  "RewriteRule . index.html [L]\n"

/-- `_write_htaccess`. -/
def write_htaccess (fs : FS) (dist : FPath) (slug : String) : FS :=
  fsWrite fs (dist ++ [".htaccess"]) (htaccessText slug)

/-! ## Archiver (`_zip_dir_with_perms`) -/

structure ZipEntry where
  name : String
  externalAttr : Nat
  dat : String
deriving DecidableEq

/-- `Path.as_posix()` of a relative path. -/
def posixOf (p : FPath) : String := ⟨List.intercalate ['/'] (p.map String.data)⟩

/-- The archive name of a directory entry: the posix path with a trailing
slash appended when absent. -/
def zipDirName (rel : String) : String :=
  if strEndsWith rel "/" then rel else rel ++ "/"

/-- `sorted([...dirs...])`: pathlib sorts by the path string. -/
def sortedDirsOf (fs : FS) : List FPath :=
  fs.dirs.insertionSort (fun a b => strLe (posixOf a) (posixOf b) = true)

/-- The directory entries: sorted, `0755`, trailing slash, empty data. -/
def zipDirEntries (fs : FS) : List ZipEntry :=
  (sortedDirsOf fs).map (fun d =>
    ⟨zipDirName (posixOf d), (0o755 &&& 0xFFFF) <<< 16, ""⟩)

/-- The file entries: traversal order, `0644`, file contents. -/
def zipFileEntries (fs : FS) : List ZipEntry :=
  fs.files.map (fun e => ⟨posixOf e.1, (0o644 &&& 0xFFFF) <<< 16, e.2⟩)

/-- `_zip_dir_with_perms`: all directory entries first (sorted), then the
file entries in traversal order. -/
def zip_dir_with_perms (fs : FS) : List ZipEntry :=
  zipDirEntries fs ++ zipFileEntries fs

/-! ## The pipeline (`process_lovable_zip`) -/

/-- The subtree of the file system under `root`, relativized — what
`dist.rglob("*")` enumerates when archiving `dist`. -/
def subtreeAt (fs : FS) (root : FPath) : FS :=
  ⟨fs.files.filterMap (fun e =>
      if underDir root e.1 then some (e.1.drop root.length, e.2) else none),
   fs.dirs.filterMap (fun d =>
      if underDir root d then some (d.drop root.length) else none)⟩

/-- The slug validation regex `[a-z0-9][a-z0-9/_-]*` (fullmatch). -/
def slugHeadChar (c : Char) : Bool := lowerAlpha c || digitCh c

def slugTailChar (c : Char) : Bool :=
  slugHeadChar c || c = '/' || c = '_' || c = '-'

def slugOk (slug : String) : Bool :=
  match slug.data with
  | [] => false
  | c :: cs => slugHeadChar c && cs.all slugTailChar

/-- `process_lovable_zip(zip_bytes, slug)` on the extracted tree `fs`.
The upload byte size is passed separately (the model keeps the archive
already extracted); the external `npm install`/`npm run build` step is
the function argument `build`, which receives the patched tree, the
project root and the framework and returns the tree it leaves behind.
A raised exception is the `Except.error` branch. -/
def process_lovable_zip (build : FS → FPath → String → FS) (slug : String)
    (sizeBytes : Nat) (fs : FS) : Except String (List ZipEntry) :=
  if ¬ slugOk slug then
    .error "Slug inválida. Use apenas letras/números, -, _ e /."
  else if sizeBytes > 500 * 1024 * 1024 then .error "ZIP muito grande."
  else
    match find_project_root fs with
    | .error e => .error e
    | .ok root =>
      let fw := detect_framework fs root
      let fs1 := apply_framework_patch fw fs root slug
      let src := locate_src fs1 root
      let fs2 :=
        if pathExists fs1 src then
          remove_browserrouter (ensure_hashrouter fs1 src) src
        else fs1
      let fs3 := build fs2 root fw
      let dist := resolve_build_output fs3 root fw
      let fs4 := if fw = "vite" then vite_post_build_sanity fs3 dist else fs3
      let fs5 := sanity_html_css fs4 dist
      let fs6 := write_htaccess fs5 dist slug
      .ok (zip_dir_with_perms (subtreeAt fs6 dist))

instance {α β : Type} [DecidableEq α] [DecidableEq β] :
    DecidableEq (Except α β) := fun a b =>
  match a, b with
  | .error x, .error y =>
    if h : x = y then .isTrue (by rw [h]) else .isFalse (by simp [h])
  | .ok x, .ok y =>
    if h : x = y then .isTrue (by rw [h]) else .isFalse (by simp [h])
  | .error _, .ok _ => .isFalse (by simp)
  | .ok _, .error _ => .isFalse (by simp)

/-! ## Job queue and worker (app/main.py)

A `Job` models the observable fields of a `Task` (the `id` is the key of
the task table; `filename` and the wall-clock enqueue/finish stamps play
no role in the claims).  `SysState` models the module globals `TASKS`,
`PENDING` and `QUEUE` plus the worker's position in its loop: `current`
is the task the single worker coroutine has dequeued and not yet finished.
`submitted` and `started` are histories (ghost state) recording the order
of submissions and of transitions into `running`.

Each `Step` constructor is one `TASK_LOCK`-guarded critical section of
`enqueue` or `worker` (or the atomic `QUEUE.get`); status/enqueue handlers
never mutate `status`, so these are all the mutations of observable job
state.  The `if not task: continue` branch of the worker is unreachable
(tasks are never removed from `TASKS`) and is not modelled. -/

inductive JStatus where
  | queued
  | running
  | done
  | error
deriving DecidableEq

structure Job where
  slug : String
  status : JStatus
  progress : ℚ
  message : String
  startedAt : Option ℚ
  result : Option String
  errorDetail : Option String
deriving DecidableEq

/-- A freshly enqueued `Task(...)`. -/
def newJob (slug : String) : Job := ⟨slug, .queued, 0, "", none, none, none⟩

structure SysState where
  tasks : List (String × Job)
  pending : List String
  queue : List String
  current : Option String
  submitted : List String
  started : List String

def findJob (ts : List (String × Job)) (id : String) : Option Job :=
  (ts.find? (fun e => e.1 == id)).map (·.2)

def updateJob (ts : List (String × Job)) (id : String) (f : Job → Job) :
    List (String × Job) :=
  ts.map (fun e => if e.1 == id then (e.1, f e.2) else e)

/-- The worker's running-transition (lines 96-100). -/
def startJob (now : ℚ) (j : Job) : Job :=
  { j with status := .running, startedAt := some now, progress := 0,
           message := "Iniciando…" }

/-- The `set_progress` callback (lines 106-110). -/
def progressJob (p : ℚ) (msg : String) (j : Job) : Job :=
  { j with progress := max 0 (min 100 p),
           message := if msg = "" then j.message else msg }

/-- The success epilogue (lines 112-117). -/
def finishJobOk (bytes : String) (j : Job) : Job :=
  { j with result := some bytes, progress := 100, message := "Concluído",
           status := .done }

/-- The failure handler (lines 119-124); `result` is left untouched. -/
def finishJobErr (msg : String) (j : Job) : Job :=
  { j with status := .error, errorDetail := some msg,
           message := "Erro no processamento" }

inductive Step : SysState → SysState → Prop where
  | enqueue (s : SysState) (id slug : String)
      (fresh : findJob s.tasks id = none) :
      Step s ⟨s.tasks ++ [(id, newJob slug)], s.pending ++ [id],
              s.queue ++ [id], s.current, s.submitted ++ [id], s.started⟩
  | start (s : SysState) (id : String) (rest : List String) (now : ℚ)
      (hq : s.queue = id :: rest) (hc : s.current = none) :
      Step s ⟨updateJob s.tasks id (startJob now), s.pending, rest,
              some id, s.submitted, s.started ++ [id]⟩
  | report (s : SysState) (id : String) (p : ℚ) (msg : String)
      (hc : s.current = some id) :
      Step s ⟨updateJob s.tasks id (progressJob p msg), s.pending, s.queue,
              s.current, s.submitted, s.started⟩
  | finishOk (s : SysState) (id : String) (bytes : String)
      (hc : s.current = some id) :
      Step s ⟨updateJob s.tasks id (finishJobOk bytes), s.pending.erase id,
              s.queue, none, s.submitted, s.started⟩
  | finishErr (s : SysState) (id : String) (msg : String)
      (hc : s.current = some id) :
      Step s ⟨updateJob s.tasks id (finishJobErr msg), s.pending.erase id,
              s.queue, none, s.submitted, s.started⟩

def initState : SysState := ⟨[], [], [], none, [], []⟩

def Reachable (s : SysState) : Prop :=
  Relation.ReflTransGen Step initState s

/-- `str(subprocess.CalledProcessError(code, cmd))`, the message a failed
external build leaves in `error_detail`. -/
def buildFailureMsg (cmd : String) (code : Int) : String :=
  "Command '" ++ cmd ++ "' returned non-zero exit status " ++ toString code ++ "."

/-! ## Download and status endpoints -/

/-- Python truthiness of `task.result` (`None` and `b""` are falsy). -/
def resultFalsy : Option String → Bool
  | none => true
  | some b => b == ""

inductive DownloadResp where
  | notFound
  | errResp (detail : String)
  | notReady
  | fileResp (bytes : String) (filename : String)
deriving DecidableEq

/-- `task_download` (app/main.py lines 510-523): 404 for an unknown id,
500 with the error detail for an `error` task, 409 before completion,
else the streamed archive. -/
def task_download (ts : List (String × Job)) (id : String) : DownloadResp :=
  match findJob ts id with
  | none => .notFound
  | some t =>
    if t.status = .error then
      .errResp (match t.errorDetail with
        | some d => if d = "" then "Erro" else d
        | none => "Erro")
    else if t.status ≠ .done ∨ resultFalsy t.result = true then .notReady
    else .fileResp (t.result.getD "") (t.slug ++ "-site.zip")

/-! ## ETA estimation (`_avg_duration`, `_queue_position`, `_eta_for`) -/

def DEFAULT_AVG : ℚ := 180

/-- `_avg_duration`. -/
def avg_duration (durations : List ℚ) : ℚ :=
  if durations.length = 0 then DEFAULT_AVG else durations.sum / durations.length

/-- `DURATIONS.append` on the `deque(maxlen=20)`: keep the last 20. -/
def pushDuration (durations : List ℚ) (d : ℚ) : List ℚ :=
  let l := durations ++ [d]
  l.drop (l.length - 20)

/-- `_queue_position`. -/
def queue_position (ts : List (String × Job)) (pending : List String)
    (id : String) : Int :=
  match findJob ts id with
  | none => -1
  | some t =>
    if t.status = .running then 0
    else
      let idx : Nat := (pending.indexOf? id).getD 0
      (idx : Int) + (if ts.any (fun e => e.2.status == .running) then 1 else 0)

/-- Python truthiness of `task.started_at` (`None` and `0.0` are falsy). -/
def truthyTime : Option ℚ → Bool
  | none => false
  | some q => decide (q ≠ 0)

/-- `_eta_for`.  Note the clamp `pct = max(0.0, min(99.0, progress))`
before the branch on `pct <= 0.1` and the linear extrapolation. -/
def eta_for (ts : List (String × Job)) (pending : List String)
    (durations : List ℚ) (now : ℚ) (id : String) : ℚ :=
  match findJob ts id with
  | none => 0
  | some t =>
    let avg := avg_duration durations
    if t.status = .running ∧ truthyTime t.startedAt = true then
      let elapsed := now - t.startedAt.getD 0
      let pct := max 0 (min 99 t.progress)
      if pct ≤ 1 / 10 then max 5 (avg - elapsed)
      else max 1 (elapsed * (100 / pct) - elapsed)
    else if t.status = .queued then
      max 5 ((queue_position ts pending id : ℚ) * avg)
    else 0

structure StatusResp where
  status : JStatus
  position : Int
  progress : ℚ
  message : String
  etaSeconds : ℚ
deriving DecidableEq

/-- `task_status` (app/main.py lines 496-508): the reported progress is
the stored progress only for a `running` task and `0.0` otherwise. -/
def task_status (ts : List (String × Job)) (pending : List String)
    (durations : List ℚ) (now : ℚ) (id : String) : Option StatusResp :=
  (findJob ts id).map (fun t =>
    ⟨t.status, queue_position ts pending id,
     if t.status = .running then t.progress else 0,
     t.message, eta_for ts pending durations now id⟩)

/-! ## The queue invariant -/

lemma updateJob_map_fst (ts : List (String × Job)) (id : String) (f : Job → Job) :
    (updateJob ts id f).map Prod.fst = ts.map Prod.fst := by
  induction ts with
  | nil => rfl
  | cons e ts ih =>
    simp only [updateJob, List.map_cons] at ih ⊢
    by_cases h : (e.1 == id) = true
    · rw [if_pos h]
      simp only [List.map_cons, ih]
    · rw [if_neg h]
      simp only [List.map_cons, ih]

lemma mem_updateJob {ts : List (String × Job)} {id : String} {f : Job → Job}
    {a : String} {j : Job} (h : (a, j) ∈ updateJob ts id f) :
    (¬ a = id ∧ (a, j) ∈ ts) ∨ (a = id ∧ ∃ j0, (a, j0) ∈ ts ∧ j = f j0) := by
  simp only [updateJob, List.mem_map] at h
  obtain ⟨⟨e1, e2⟩, he, heq⟩ := h
  by_cases hid : e1 = id
  · right
    rw [if_pos (beq_iff_eq.mpr hid)] at heq
    have h1 : e1 = a := congrArg Prod.fst heq
    have h2 : f e2 = j := congrArg Prod.snd heq
    refine ⟨h1 ▸ hid, e2, ?_, h2.symm⟩
    rw [← h1]
    exact he
  · left
    rw [if_neg (by simpa using hid)] at heq
    have h1 : e1 = a := congrArg Prod.fst heq
    exact ⟨h1 ▸ hid, heq ▸ he⟩

lemma findJob_eq_none_iff {ts : List (String × Job)} {id : String} :
    findJob ts id = none ↔ id ∉ ts.map Prod.fst := by
  unfold findJob
  rw [Option.map_eq_none', List.find?_eq_none]
  constructor
  · intro h hmem
    obtain ⟨e, he, hfst⟩ := List.mem_map.mp hmem
    exact h e he (beq_iff_eq.mpr hfst)
  · intro h e he hbeq
    exact h (List.mem_map.mpr ⟨e, he, beq_iff_eq.mp hbeq⟩)

lemma findJob_mem {ts : List (String × Job)} {id : String} {j : Job}
    (h : findJob ts id = some j) : (id, j) ∈ ts := by
  unfold findJob at h
  rw [Option.map_eq_some'] at h
  obtain ⟨e, he, hj⟩ := h
  have h1 := List.find?_some he
  have h2 : e ∈ ts := List.mem_of_find?_eq_some he
  have h3 : e = (id, j) := by
    obtain ⟨e1, e2⟩ := e
    simp only at h1 hj
    simp only [Prod.mk.injEq]
    exact ⟨beq_iff_eq.mp h1, hj⟩
  exact h3 ▸ h2

lemma mem_findJob {ts : List (String × Job)} {id : String} {j : Job}
    (hn : (ts.map Prod.fst).Nodup) (h : (id, j) ∈ ts) :
    findJob ts id = some j := by
  induction ts with
  | nil => cases h
  | cons e ts ih =>
    simp only [List.map_cons, List.nodup_cons] at hn
    rcases List.mem_cons.mp h with he | hts
    · rw [← he]
      simp [findJob]
    · have hne : ¬ e.1 = id := by
        intro hfst
        exact hn.1 (hfst ▸ List.mem_map.mpr ⟨(id, j), hts, rfl⟩)
      unfold findJob
      rw [List.find?_cons_of_neg _ (by simpa using hne)]
      exact ih hn.2 hts

/-- The inductive invariant of the queue system: the submission history
is the key list of the task table, without duplicates; it splits as the
start history followed by the waiting queue (FIFO); a job is `running`
exactly when it is the worker's current job; every previously started,
non-current job is terminal; queued-in-`QUEUE` jobs have status `queued`;
and only a `done` job can carry a result. -/
structure Inv (s : SysState) : Prop where
  subKeys : s.submitted = s.tasks.map Prod.fst
  subNodup : s.submitted.Nodup
  fifo : s.submitted = s.started ++ s.queue
  currentStarted : ∀ id, s.current = some id → id ∈ s.started
  runIff : ∀ id j, (id, j) ∈ s.tasks → (j.status = .running ↔ s.current = some id)
  startedTerm : ∀ id, id ∈ s.started → s.current ≠ some id →
    ∀ j, (id, j) ∈ s.tasks → j.status = .done ∨ j.status = .error
  queueQueued : ∀ id, id ∈ s.queue → ∀ j, (id, j) ∈ s.tasks → j.status = .queued
  resultOnlyDone : ∀ id j, (id, j) ∈ s.tasks → j.status ≠ .done → j.result = none

lemma inv_init : Inv initState := by
  refine ⟨rfl, List.nodup_nil, rfl, ?_, ?_, ?_, ?_, ?_⟩ <;> simp [initState]

lemma inv_step {s s' : SysState} (inv : Inv s) (st : Step s s') : Inv s' := by
  cases st with
  | enqueue id slug fresh =>
    have hid : id ∉ s.tasks.map Prod.fst := findJob_eq_none_iff.mp fresh
    have hidSub : id ∉ s.submitted := inv.subKeys ▸ hid
    have hcur : s.current ≠ some id := fun hc =>
      hidSub (inv.fifo ▸ List.mem_append_left _ (inv.currentStarted id hc))
    refine ⟨?_, ?_, ?_, ?_, ?_, ?_, ?_, ?_⟩
    · simp [inv.subKeys]
    · simpa [List.nodup_append] using ⟨inv.subNodup, fun h => hidSub h⟩
    · simp [inv.fifo, List.append_assoc]
    · exact fun a hc => inv.currentStarted a hc
    · intro a j hm
      rcases List.mem_append.mp hm with hm | hm
      · exact inv.runIff a j hm
      · simp only [List.mem_singleton, Prod.mk.injEq] at hm
        obtain ⟨ha, hj⟩ := hm
        subst hj
        subst ha
        exact ⟨(fun h => nomatch h), (fun h => absurd h hcur)⟩
    · intro a ha hac j hm
      rcases List.mem_append.mp hm with hm | hm
      · exact inv.startedTerm a ha hac j hm
      · simp only [List.mem_singleton, Prod.mk.injEq] at hm
        exact absurd (inv.fifo ▸ List.mem_append_left _ (hm.1 ▸ ha)) hidSub
    · intro a ha j hm
      rcases List.mem_append.mp hm with hm | hm
      · rcases List.mem_append.mp ha with ha | ha
        · exact inv.queueQueued a ha j hm
        · simp only [List.mem_singleton] at ha
          exact absurd (List.mem_map.mpr ⟨(a, j), hm, rfl⟩) (ha ▸ hid)
      · simp only [List.mem_singleton, Prod.mk.injEq] at hm
        rw [hm.2]
        rfl
    · intro a j hm hnd
      rcases List.mem_append.mp hm with hm | hm
      · exact inv.resultOnlyDone a j hm hnd
      · simp only [List.mem_singleton, Prod.mk.injEq] at hm
        rw [hm.2]
        rfl
  | start id rest now hq hc =>
    have hqNodup : s.queue.Nodup := (inv.fifo ▸ inv.subNodup).of_append_right
    have hidRest : id ∉ rest := (List.nodup_cons.mp (hq ▸ hqNodup)).1
    refine ⟨?_, inv.subNodup, ?_, ?_, ?_, ?_, ?_, ?_⟩
    · rw [updateJob_map_fst]
      exact inv.subKeys
    · rw [inv.fifo, hq]
      simp [List.append_assoc]
    · intro a ha
      simp only [Option.some.injEq] at ha
      exact List.mem_append_right _ (by simp [ha])
    · intro a j hm
      rcases mem_updateJob hm with ⟨hne, hmem⟩ | ⟨hae, j0, hmem, hj⟩
      · have hnr : ¬ j.status = .running := fun hr =>
          Option.noConfusion (hc ▸ (inv.runIff a j hmem).mp hr)
        exact ⟨(fun h => absurd h hnr), (fun h => absurd (Option.some.inj h).symm hne)⟩
      · subst hj
        simp only [startJob, hae]
    · intro a ha hac j hm
      simp only [ne_eq, Option.some.injEq] at hac
      rcases List.mem_append.mp ha with ha | ha
      · rcases mem_updateJob hm with ⟨hne, hmem⟩ | ⟨hae, j0, hmem, hj⟩
        · exact inv.startedTerm a ha (hc ▸ fun h => Option.noConfusion h) j hmem
        · exact absurd hae.symm hac
      · simp only [List.mem_singleton] at ha
        exact absurd ha.symm hac
    · intro a ha j hm
      have hane : ¬ a = id := fun h => hidRest (h ▸ ha)
      rcases mem_updateJob hm with ⟨_, hmem⟩ | ⟨hae, _, _, _⟩
      · exact inv.queueQueued a (hq ▸ List.mem_cons_of_mem id ha) j hmem
      · exact absurd hae hane
    · intro a j hm hnd
      rcases mem_updateJob hm with ⟨_, hmem⟩ | ⟨hae, j0, hmem, hj⟩
      · exact inv.resultOnlyDone a j hmem hnd
      · subst hj
        simp only [startJob]
        have hnr : ¬ j0.status = .running := fun hr =>
          Option.noConfusion (hc ▸ (inv.runIff a j0 hmem).mp hr)
        have : j0.status ≠ .done := by
          intro hd
          rcases inv.queueQueued a (hae ▸ hq ▸ List.mem_cons_self id rest) j0 hmem with hqd
          rw [hqd] at hd
          cases hd
        exact inv.resultOnlyDone a j0 hmem this
  | report id p msg hc =>
    refine ⟨?_, inv.subNodup, inv.fifo, inv.currentStarted, ?_, ?_, ?_, ?_⟩
    · rw [updateJob_map_fst]
      exact inv.subKeys
    · intro a j hm
      rcases mem_updateJob hm with ⟨_, hmem⟩ | ⟨hae, j0, hmem, hj⟩
      · exact inv.runIff a j hmem
      · subst hj
        simpa only [progressJob] using inv.runIff a j0 hmem
    · intro a ha hac j hm
      rcases mem_updateJob hm with ⟨_, hmem⟩ | ⟨hae, j0, hmem, hj⟩
      · exact inv.startedTerm a ha hac j hmem
      · subst hj
        simpa only [progressJob] using inv.startedTerm a ha hac j0 hmem
    · intro a ha j hm
      rcases mem_updateJob hm with ⟨_, hmem⟩ | ⟨hae, j0, hmem, hj⟩
      · exact inv.queueQueued a ha j hmem
      · subst hj
        simpa only [progressJob] using inv.queueQueued a ha j0 hmem
    · intro a j hm hnd
      rcases mem_updateJob hm with ⟨_, hmem⟩ | ⟨hae, j0, hmem, hj⟩
      · exact inv.resultOnlyDone a j hmem hnd
      · subst hj
        simpa only [progressJob] using inv.resultOnlyDone a j0 hmem
          (by simpa only [progressJob] using hnd)
  | finishOk id bytes hc =>
    have hidStarted : id ∈ s.started := inv.currentStarted id hc
    have hdisj : s.started.Disjoint s.queue :=
      (List.nodup_append.mp (inv.fifo ▸ inv.subNodup)).2.2
    refine ⟨?_, inv.subNodup, inv.fifo, ?_, ?_, ?_, ?_, ?_⟩
    · rw [updateJob_map_fst]
      exact inv.subKeys
    · exact fun a ha => nomatch ha
    · intro a j hm
      rcases mem_updateJob hm with ⟨hne, hmem⟩ | ⟨hae, j0, hmem, hj⟩
      · have hnr : ¬ j.status = .running := fun hr =>
          hne (Option.some.inj (hc ▸ (inv.runIff a j hmem).mp hr)).symm
        exact ⟨(fun h => absurd h hnr), (fun h => nomatch h)⟩
      · subst hj
        simp only [finishJobOk]
        exact ⟨(fun h => nomatch h), (fun h => nomatch h)⟩
    · intro a ha _ j hm
      rcases mem_updateJob hm with ⟨hne, hmem⟩ | ⟨hae, j0, hmem, hj⟩
      · refine inv.startedTerm a ha ?_ j hmem
        rw [hc]
        exact fun h => hne (Option.some.inj h).symm
      · subst hj
        exact Or.inl rfl
    · intro a ha j hm
      have hane : ¬ a = id := fun h => hdisj (h ▸ hidStarted) ha
      rcases mem_updateJob hm with ⟨_, hmem⟩ | ⟨hae, _, _, _⟩
      · exact inv.queueQueued a ha j hmem
      · exact absurd hae hane
    · intro a j hm hnd
      rcases mem_updateJob hm with ⟨_, hmem⟩ | ⟨hae, j0, hmem, hj⟩
      · exact inv.resultOnlyDone a j hmem hnd
      · subst hj
        exact absurd rfl hnd
  | finishErr id msg hc =>
    have hidStarted : id ∈ s.started := inv.currentStarted id hc
    have hdisj : s.started.Disjoint s.queue :=
      (List.nodup_append.mp (inv.fifo ▸ inv.subNodup)).2.2
    refine ⟨?_, inv.subNodup, inv.fifo, ?_, ?_, ?_, ?_, ?_⟩
    · rw [updateJob_map_fst]
      exact inv.subKeys
    · exact fun a ha => nomatch ha
    · intro a j hm
      rcases mem_updateJob hm with ⟨hne, hmem⟩ | ⟨hae, j0, hmem, hj⟩
      · have hnr : ¬ j.status = .running := fun hr =>
          hne (Option.some.inj (hc ▸ (inv.runIff a j hmem).mp hr)).symm
        exact ⟨(fun h => absurd h hnr), (fun h => nomatch h)⟩
      · subst hj
        simp only [finishJobErr]
        exact ⟨(fun h => nomatch h), (fun h => nomatch h)⟩
    · intro a ha _ j hm
      rcases mem_updateJob hm with ⟨hne, hmem⟩ | ⟨hae, j0, hmem, hj⟩
      · refine inv.startedTerm a ha ?_ j hmem
        rw [hc]
        exact fun h => hne (Option.some.inj h).symm
      · subst hj
        exact Or.inr rfl
    · intro a ha j hm
      have hane : ¬ a = id := fun h => hdisj (h ▸ hidStarted) ha
      rcases mem_updateJob hm with ⟨_, hmem⟩ | ⟨hae, _, _, _⟩
      · exact inv.queueQueued a ha j hmem
      · exact absurd hae hane
    · intro a j hm hnd
      rcases mem_updateJob hm with ⟨_, hmem⟩ | ⟨hae, j0, hmem, hj⟩
      · exact inv.resultOnlyDone a j hmem hnd
      · subst hj
        simp only [finishJobErr]
        have hrun : j0.status = .running := (inv.runIff a j0 hmem).mpr (hae ▸ hc)
        exact inv.resultOnlyDone a j0 hmem (by rw [hrun]; exact fun h => nomatch h)

lemma inv_reachable {s : SysState} (h : Reachable s) : Inv s := by
  induction h with
  | refl => exact inv_init
  | tail _ hstep ih => exact inv_step ih hstep

/-! ## Order lemmas for the archiver sort -/

lemma strListLe_total (as bs : List Char) :
    strListLe as bs = true ∨ strListLe bs as = true := by
  induction as generalizing bs with
  | nil => left; rfl
  | cons a as ih =>
    cases bs with
    | nil => right; rfl
    | cons b bs =>
      by_cases hab : a = b
      · subst hab
        simpa [strListLe] using ih bs
      · simp only [strListLe, if_neg hab, if_neg (Ne.symm hab)]
        rcases le_total a.toNat b.toNat with h | h
        · left; exact decide_eq_true h
        · right; exact decide_eq_true h

lemma strListLe_trans {as bs cs : List Char} (h1 : strListLe as bs = true)
    (h2 : strListLe bs cs = true) : strListLe as cs = true := by
  induction as generalizing bs cs with
  | nil => rfl
  | cons a as ih =>
    cases bs with
    | nil => simp [strListLe] at h1
    | cons b bs =>
      cases cs with
      | nil => simp [strListLe] at h2
      | cons c cs =>
        by_cases hab : a = b <;> by_cases hbc : b = c
        · subst hab
          subst hbc
          simp only [strListLe, if_pos rfl] at h1 h2 ⊢
          exact ih h1 h2
        · subst hab
          simp only [strListLe, if_neg hbc] at h2 ⊢
          exact h2
        · subst hbc
          simp only [strListLe, if_neg hab] at h1 ⊢
          exact h1
        · simp only [strListLe, if_neg hab] at h1
          simp only [strListLe, if_neg hbc] at h2
          have hv1 : a.toNat ≤ b.toNat := of_decide_eq_true h1
          have hv2 : b.toNat ≤ c.toNat := of_decide_eq_true h2
          have hac : ¬ a = c := by
            intro he
            subst he
            exact hab (Char.eq_of_val_eq (UInt32.ext (le_antisymm hv1 hv2)))
          simp only [strListLe, if_neg hac]
          exact decide_eq_true (hv1.trans hv2)

lemma strLe_total_pair (a b : String) : strLe a b = true ∨ strLe b a = true :=
  strListLe_total a.data b.data

lemma strLe_trans_str {a b c : String} (h1 : strLe a b = true)
    (h2 : strLe b c = true) : strLe a c = true :=
  strListLe_trans h1 h2

lemma strEndsWith_append_slash (s : String) :
    strEndsWith (s ++ "/") "/" = true := by
  simp only [strEndsWith, String.data_append, List.isSuffixOf,
    List.reverse_append]
  simp [List.isPrefixOf]

/-! ## Claim theorems -/

/-- C3: the Output Normalizer leaves every `src`/`href` attribute value
and every CSS `url(...)` value unchanged when (after trimming,
case-insensitively) it starts with one of `http://`, `https://`, `//`,
`data:`, `mailto:`, `tel:`, and strips the leading slash(es) from every
(non-safe) value starting with `/`; in particular
`href="/assets/x.js"` becomes `href="assets/x.js"`,
`href="https://cdn.example/x.js"` is unchanged, and
`url(/img/a.png)` becomes `url(img/a.png)`. -/
theorem url_normalization_spec :
    (∀ u : String, is_safe u = true → strip_leading u = u) ∧
    (∀ u : String, is_safe u = false → u.data.headD ' ' = '/' →
      strip_leading u = ⟨u.data.dropWhile (· = '/')⟩) ∧
    sanityHtmlText "<a href=\"/assets/x.js\">" = "<a href=\"assets/x.js\">" ∧
    sanityHtmlText "<a href=\"https://cdn.example/x.js\">" =
      "<a href=\"https://cdn.example/x.js\">" ∧
    sanityCssText "body \x7b background: url(/img/a.png) \x7d" =
      "body \x7b background: url(img/a.png) \x7d" := by
  refine ⟨?_, ?_, by decide, by decide, by decide⟩
  · intro u hs
    unfold strip_leading
    by_cases he : u.data = []
    · simp [he]
    · simp [he, hs]
  · intro u hs hh
    have he : ¬ u.data = [] := by
      intro h
      rw [h] at hh
      exact absurd hh (by decide)
    unfold strip_leading
    rw [if_neg he, if_neg (by simp [hs]), if_pos hh]

/-- Witness for C3 at concrete values: a fully-qualified URL is kept, a
root-relative one loses its leading slash. -/
theorem url_normalization_spec_witness :
    strip_leading "https://cdn.example/x.js" = "https://cdn.example/x.js" ∧
    strip_leading "/img/a.png" = "img/a.png" := by
  constructor
  · exact url_normalization_spec.1 "https://cdn.example/x.js" (by decide)
  · have h := url_normalization_spec.2.1 "/img/a.png" (by decide) (by decide)
    rw [h]
    decide

/-- C4: the Project Locator enumerates the parents of all `package.json`
entries outside `node_modules`, fails with the no-project error when none
exist, and otherwise returns a candidate of maximal score, where the
score is +10 for a directly contained bundler config minus the path
depth. -/
theorem project_locator_spec (fs : FS) :
    (packageJsonDirs fs = [] →
      find_project_root fs = .error "package.json não encontrado no ZIP.") ∧
    (∀ d, find_project_root fs = .ok d →
      d ∈ packageJsonDirs fs ∧
        ∀ c ∈ packageJsonDirs fs, rootScore fs c ≤ rootScore fs d) ∧
    (∀ d, d ∈ packageJsonDirs fs ↔
      ∃ p, p ∈ fs.files.map Prod.fst ++ fs.dirs ∧
        p.getLast? = some "package.json" ∧
        p.contains "node_modules" = false ∧ p.dropLast = d) := by
  refine ⟨?_, ?_, ?_⟩
  · intro h
    unfold find_project_root
    rw [if_pos h]
  · intro d hd
    unfold find_project_root at hd
    by_cases hl : packageJsonDirs fs = []
    · rw [if_pos hl] at hd
      cases hd
    · rw [if_neg hl] at hd
      haveI : IsTotal FPath (fun a b => rootScore fs b ≤ rootScore fs a) :=
        ⟨fun a b => (le_total (rootScore fs a) (rootScore fs b)).symm⟩
      haveI : IsTrans FPath (fun a b => rootScore fs b ≤ rootScore fs a) :=
        ⟨fun _ _ _ hab hbc => le_trans hbc hab⟩
      have hperm : (sortCandidates fs (packageJsonDirs fs)).Perm
          (packageJsonDirs fs) := List.perm_insertionSort _ _
      have hsorted : List.Sorted (fun a b => rootScore fs b ≤ rootScore fs a)
          (sortCandidates fs (packageJsonDirs fs)) :=
        List.sorted_insertionSort _ _
      rcases hs : sortCandidates fs (packageJsonDirs fs) with _ | ⟨h0, t0⟩
      · rw [hs] at hperm
        exact absurd (hperm.symm.eq_nil) hl
      · rw [hs] at hperm hsorted hd
        simp only [List.headD_cons, Except.ok.injEq] at hd
        subst hd
        refine ⟨hperm.subset (List.mem_cons_self _ _), ?_⟩
        intro c2 hc2
        rcases List.mem_cons.mp (hperm.symm.subset hc2) with he | ht
        · rw [he]
        · exact (List.pairwise_cons.mp hsorted).1 c2 ht
  · intro d
    simp only [packageJsonDirs, rglobNamed, List.mem_map, List.mem_filter,
      decide_eq_true_eq, Bool.not_eq_true']
    constructor
    · rintro ⟨p, ⟨⟨hp, hlast⟩, hnm⟩, hdl⟩
      exact ⟨p, hp, hlast, hnm, hdl⟩
    · rintro ⟨p, hp, hlast, hnm, hdl⟩
      exact ⟨p, ⟨⟨hp, hlast⟩, hnm⟩, hdl⟩

/-- Witness for C4: a single root manifest is selected, and its score is
maximal among candidates. -/
theorem project_locator_spec_witness :
    ([] : FPath) ∈ packageJsonDirs ⟨[(["package.json"], "")], []⟩ ∧
    ∀ c ∈ packageJsonDirs ⟨[(["package.json"], "")], []⟩,
      rootScore ⟨[(["package.json"], "")], []⟩ c ≤
        rootScore ⟨[(["package.json"], "")], []⟩ [] :=
  (project_locator_spec ⟨[(["package.json"], "")], []⟩).2.1 [] (by decide)

/-- C5 counterexample: with no `dist`, `build` or `out` in the project
root, the resolution step does not fail with a `NoBuildOutput` error —
`_build` falls back to returning `root/dist` even though that directory
does not exist (processor.py lines 194-196 end in `return root/"dist"`,
and no `NoBuildOutput` error exists anywhere in the source). -/
theorem build_output_defaults_to_dist_concrete :
    resolve_build_output ⟨[], []⟩ [] "vite" = ["dist"] ∧
    pathExists ⟨[], []⟩ ["dist"] = false := by
  exact ⟨by decide, by decide⟩

/-- C5 amended: the output directory for `next` is the fixed name `dist`;
for every other framework the names `dist`, `build`, `out` are probed in
that order and the first existing one is selected; when none exists the
step does not fail but returns the (non-existent) `root/dist`. -/
theorem build_output_resolution (fs : FS) (root : FPath) (fw : String) :
    (fw = "next" → resolve_build_output fs root fw = root ++ ["dist"]) ∧
    (fw ≠ "next" → pathExists fs (root ++ ["dist"]) = true →
      resolve_build_output fs root fw = root ++ ["dist"]) ∧
    (fw ≠ "next" → pathExists fs (root ++ ["dist"]) = false →
      pathExists fs (root ++ ["build"]) = true →
      resolve_build_output fs root fw = root ++ ["build"]) ∧
    (fw ≠ "next" → pathExists fs (root ++ ["dist"]) = false →
      pathExists fs (root ++ ["build"]) = false →
      pathExists fs (root ++ ["out"]) = true →
      resolve_build_output fs root fw = root ++ ["out"]) ∧
    (fw ≠ "next" → pathExists fs (root ++ ["dist"]) = false →
      pathExists fs (root ++ ["build"]) = false →
      pathExists fs (root ++ ["out"]) = false →
      resolve_build_output fs root fw = root ++ ["dist"]) := by
  unfold resolve_build_output
  refine ⟨fun h => by rw [if_pos h], ?_, ?_, ?_, ?_⟩
  · intro h h1
    rw [if_neg h]
    simp [List.find?, h1]
  · intro h h1 h2
    rw [if_neg h]
    simp [List.find?, h1, h2]
  · intro h h1 h2 h3
    rw [if_neg h]
    simp [List.find?, h1, h2, h3]
  · intro h h1 h2 h3
    rw [if_neg h]
    simp [List.find?, h1, h2, h3]

/-- Witness for C5 amended: `build` is selected when `dist` is absent. -/
theorem build_output_resolution_witness :
    resolve_build_output ⟨[], [["build"]]⟩ [] "vite" = ["build"] :=
  (build_output_resolution ⟨[], [["build"]]⟩ [] "vite").2.2.1
    (by decide) (by decide) (by decide)

/-- C1 counterexample: an archive containing only a pre-built directory
with `index.html` and no manifest anywhere makes the pipeline fail —
`_find_project_root` raises `FileNotFoundError` and `process_lovable_zip`
does not catch it, so no fallback pass-through zip is produced (the
claimed fallback search for an output directory / entry HTML file does
not exist in the source). -/
theorem no_manifest_pipeline_errors_concrete :
    process_lovable_zip (fun fs _ _ => fs) "demo" 0
        ⟨[(["site", "index.html"], "<html></html>")], [["site"]]⟩ =
      .error "package.json não encontrado no ZIP." := by decide

/-- C1 amended: for every build step, valid slug and in-bounds upload
size, an extracted tree with no `package.json` outside `node_modules`
makes the pipeline fail the job with the no-project error; there is no
fallback that returns a zip of the archive. -/
theorem no_manifest_pipeline_errors (build : FS → FPath → String → FS)
    (slug : String) (sizeBytes : Nat) (fs : FS)
    (hslug : slugOk slug = true) (hsize : sizeBytes ≤ 500 * 1024 * 1024)
    (hnone : packageJsonDirs fs = []) :
    process_lovable_zip build slug sizeBytes fs =
      .error "package.json não encontrado no ZIP." := by
  unfold process_lovable_zip
  rw [if_neg (by simp [hslug]), if_neg (by omega)]
  unfold find_project_root
  rw [if_pos hnone]

/-- Witness for C1 amended at a concrete pre-built archive. -/
theorem no_manifest_pipeline_errors_witness :
    process_lovable_zip (fun fs _ _ => fs) "site" 7
        ⟨[(["dist", "index.html"], "<html></html>")], [["dist"]]⟩ =
      .error "package.json não encontrado no ZIP." :=
  no_manifest_pipeline_errors (fun fs _ _ => fs) "site" 7
    ⟨[(["dist", "index.html"], "<html></html>")], [["dist"]]⟩
    (by decide) (by decide) (by decide)

set_option maxRecDepth 16384 in
/-- C2 counterexample: the Source Patcher is not idempotent.  On a
project tree whose entry file `src/main.tsx` renders `<App />`, the first
application wraps the element in `<HashRouter>...</HashRouter>`; the
second application wraps it again, because the wrap substitution
`re.sub(r'(<App\s*/>)', r'<HashRouter>\1</HashRouter>', t)` matches the
inner `<App />` on every application, so the patched tree changes again. -/
theorem source_patcher_not_idempotent :
    source_patcher "app"
        (source_patcher "app"
          ⟨[(["package.json"], "x"),
            (["src", "main.tsx"],
              "import App from \"./App\";\nconst r = (<App />);\n")],
           [["src"]]⟩ [])
        [] ≠
      source_patcher "app"
        ⟨[(["package.json"], "x"),
          (["src", "main.tsx"],
            "import App from \"./App\";\nconst r = (<App />);\n")],
         [["src"]]⟩ [] := by decide

set_option maxRecDepth 16384 in
/-- C2 amended: the framework-config and import-injection patches detect
the already-patched state, but the hash-router wrap re-wraps the root
element on every application: on the tree above the first pass yields a
single `HashRouter` wrapper and injects the import once, while the second
pass nests a second wrapper (and inserts nothing else), so applying the
Source Patcher twice differs from applying it once exactly by the extra
wrapper. -/
theorem source_patcher_second_pass_rewraps :
    fsRead
        (source_patcher "app"
          ⟨[(["package.json"], "x"),
            (["src", "main.tsx"],
              "import App from \"./App\";\nconst r = (<App />);\n")],
           [["src"]]⟩ [])
        ["src", "main.tsx"] =
      some ("import App from \"./App\";\nimport \x7b HashRouter \x7d from " ++
        "\"react-router-dom\";\nconst r = (<HashRouter><App /></HashRouter>);\n") ∧
    fsRead
        (source_patcher "app"
          (source_patcher "app"
            ⟨[(["package.json"], "x"),
              (["src", "main.tsx"],
                "import App from \"./App\";\nconst r = (<App />);\n")],
             [["src"]]⟩ [])
          [])
        ["src", "main.tsx"] =
      some ("import App from \"./App\";\nimport \x7b HashRouter \x7d from " ++
        "\"react-router-dom\";\nconst r = " ++
        "(<HashRouter><HashRouter><App /></HashRouter></HashRouter>);\n") := by
  exact ⟨by decide, by decide⟩

/-- C8 counterexample: the archive entries are not written in one global
lexicographic order — all directory entries are written before all file
entries, so `b/` precedes `a.txt`. -/
theorem zip_entries_not_lexicographic :
    (zip_dir_with_perms ⟨[(["a.txt"], ""), (["b", "c.txt"], "")], [["b"]]⟩).map
        ZipEntry.name = ["b/", "a.txt", "b/c.txt"] ∧
    ¬ List.Sorted (fun a b => strLe a b = true)
        ((zip_dir_with_perms
          ⟨[(["a.txt"], ""), (["b", "c.txt"], "")], [["b"]]⟩).map
            ZipEntry.name) := by
  have hn : (zip_dir_with_perms
      ⟨[(["a.txt"], ""), (["b", "c.txt"], "")], [["b"]]⟩).map ZipEntry.name =
      ["b/", "a.txt", "b/c.txt"] := by decide
  refine ⟨hn, ?_⟩
  intro h
  rw [hn] at h
  have := (List.pairwise_cons.mp h).1 "a.txt" (by simp)
  exact absurd this (by decide)

/-- C8 amended: the Archiver writes one entry per subdirectory with
permission bits 0755 and a trailing slash and one per regular file with
0644, over POSIX-style relative slash-joined paths; the directory
entries come first, sorted lexicographically by path string, followed by
the file entries in the traversal order of the tree (not re-sorted). -/
theorem zip_entries_structure (fs : FS) :
    zip_dir_with_perms fs = zipDirEntries fs ++ zipFileEntries fs ∧
    (∀ e ∈ zipDirEntries fs,
      e.externalAttr = (0o755 &&& 0xFFFF) <<< 16 ∧
        strEndsWith e.name "/" = true ∧ e.dat = "") ∧
    (∀ e ∈ zipFileEntries fs, e.externalAttr = (0o644 &&& 0xFFFF) <<< 16) ∧
    (zipFileEntries fs).map ZipEntry.name =
      fs.files.map (fun e => posixOf e.1) ∧
    List.Sorted (fun a b => strLe a b = true)
      ((sortedDirsOf fs).map posixOf) ∧
    (sortedDirsOf fs).Perm fs.dirs ∧
    (zipDirEntries fs).map ZipEntry.name =
      (sortedDirsOf fs).map (fun d => zipDirName (posixOf d)) := by
  refine ⟨rfl, ?_, ?_, ?_, ?_, ?_, ?_⟩
  · intro e he
    simp only [zipDirEntries, List.mem_map] at he
    obtain ⟨d, _, he⟩ := he
    subst he
    refine ⟨rfl, ?_, rfl⟩
    unfold zipDirName
    by_cases h : strEndsWith (posixOf d) "/" = true
    · rw [if_pos h]
      exact h
    · rw [if_neg h]
      exact strEndsWith_append_slash (posixOf d)
  · intro e he
    simp only [zipFileEntries, List.mem_map] at he
    obtain ⟨f, _, he⟩ := he
    subst he
    rfl
  · simp [zipFileEntries]
  · haveI : IsTotal FPath (fun a b => strLe (posixOf a) (posixOf b) = true) :=
      ⟨fun a b => strLe_total_pair (posixOf a) (posixOf b)⟩
    haveI : IsTrans FPath (fun a b => strLe (posixOf a) (posixOf b) = true) :=
      ⟨fun _ _ _ hab hbc => strLe_trans_str hab hbc⟩
    have hs : List.Sorted (fun a b => strLe (posixOf a) (posixOf b) = true)
        (sortedDirsOf fs) := List.sorted_insertionSort _ _
    exact List.Pairwise.map posixOf (fun _ _ h => h) hs
  · exact List.perm_insertionSort _ _
  · simp [zipDirEntries, List.map_map, Function.comp]

/-- Witness for C8 amended: the single directory entry of a one-directory
tree carries permission bits 0755, a trailing slash and empty data. -/
theorem zip_entries_structure_witness :
    (⟨"b/", 32309248, ""⟩ : ZipEntry).externalAttr =
      (0o755 &&& 0xFFFF) <<< 16 ∧
    strEndsWith (⟨"b/", 32309248, ""⟩ : ZipEntry).name "/" = true ∧
    (⟨"b/", 32309248, ""⟩ : ZipEntry).dat = "" :=
  (zip_entries_structure ⟨[], [["b"]]⟩).2.1 ⟨"b/", 32309248, ""⟩ (by decide)

/-- C6: in every reachable state of the queue system at most one job is
`running`; the order in which jobs entered `running` (`started`) is a
prefix of the submission order (`submitted`), i.e. jobs start in strict
FIFO submission order; and every started job other than the worker's
current one has reached a terminal state (`done` or `error`), so a job
enters `running` only after its predecessor finished. -/
theorem queue_single_slot_fifo (s : SysState) (h : Reachable s) :
    (∀ id1 id2 j1 j2, (id1, j1) ∈ s.tasks → (id2, j2) ∈ s.tasks →
      j1.status = .running → j2.status = .running → id1 = id2) ∧
    (∃ rest, s.submitted = s.started ++ rest) ∧
    (∀ id, id ∈ s.started → s.current ≠ some id →
      ∀ j, (id, j) ∈ s.tasks → j.status = .done ∨ j.status = .error) := by
  have inv := inv_reachable h
  refine ⟨?_, ⟨s.queue, inv.fifo⟩, inv.startedTerm⟩
  intro id1 id2 j1 j2 h1 h2 hr1 hr2
  have e1 := (inv.runIff id1 j1 h1).mp hr1
  have e2 := (inv.runIff id2 j2 h2).mp hr2
  rw [e1] at e2
  exact Option.some.inj e2

/-- Witness for C6: the state reached by enqueuing job `A` and letting
the worker start it. -/
theorem queue_single_slot_fifo_witness :
    ∃ rest,
      (⟨updateJob [("A", newJob "demo")] "A" (startJob 5), ["A"], [],
        some "A", ["A"], ["A"]⟩ : SysState).submitted =
      (⟨updateJob [("A", newJob "demo")] "A" (startJob 5), ["A"], [],
        some "A", ["A"], ["A"]⟩ : SysState).started ++ rest := by
  have h1 : Step initState
      ⟨[("A", newJob "demo")], ["A"], ["A"], none, ["A"], []⟩ :=
    Step.enqueue initState "A" "demo" rfl
  have h2 : Step (⟨[("A", newJob "demo")], ["A"], ["A"], none, ["A"], []⟩ :
      SysState)
      ⟨updateJob [("A", newJob "demo")] "A" (startJob 5), ["A"], [],
        some "A", ["A"], ["A"]⟩ :=
    Step.start _ "A" [] 5 rfl rfl
  exact (queue_single_slot_fifo _
    (Relation.ReflTransGen.tail
      (Relation.ReflTransGen.tail Relation.ReflTransGen.refl h1) h2)).2.1

/-- C7 counterexample: for a job whose external build failed, `download`
does not return not-found — it answers with the HTTP 500 branch carrying
the captured `CalledProcessError` text (`task_download` raises 404 only
for an unknown job id; the `error` branch raises 500,
app/main.py lines 515-516). -/
theorem download_error_job_returns_500_concrete :
    task_download
        (updateJob (updateJob [("A", newJob "demo")] "A" (startJob 5)) "A"
          (finishJobErr (buildFailureMsg "['npm', 'run', 'build']" 1))) "A" =
      .errResp
        "Command '['npm', 'run', 'build']' returned non-zero exit status 1." ∧
    task_download
        (updateJob (updateJob [("A", newJob "demo")] "A" (startJob 5)) "A"
          (finishJobErr (buildFailureMsg "['npm', 'run', 'build']" 1))) "A" ≠
      .notFound := by
  exact ⟨by decide, by decide⟩

/-- C7 amended: when the build fails the job is `error` with the captured
message, its `result` stays absent in every reachable state, and the
download endpoint answers the 500-error branch with that message — not
the artifact, and not the 404 not-found reserved for unknown ids. -/
theorem error_job_no_result_download_500 (s : SysState) (h : Reachable s)
    (id : String) (j : Job) (hm : (id, j) ∈ s.tasks)
    (he : j.status = .error) :
    j.result = none ∧
    task_download s.tasks id =
      .errResp (match j.errorDetail with
        | some d => if d = "" then "Erro" else d
        | none => "Erro") ∧
    task_download s.tasks id ≠ .notFound := by
  have inv := inv_reachable h
  have hres : j.result = none :=
    inv.resultOnlyDone id j hm (by rw [he]; exact fun hh => nomatch hh)
  have hfind : findJob s.tasks id = some j :=
    mem_findJob (inv.subKeys ▸ inv.subNodup) hm
  unfold task_download
  rw [hfind]
  refine ⟨hres, ?_, ?_⟩
  · simp [he]
  · simp [he]

/-- Witness for C7 amended, at the reachable state where job `A` was
enqueued, started, and failed its external build. -/
theorem error_job_no_result_download_500_witness :
    (finishJobErr (buildFailureMsg "['npm', 'run', 'build']" 1)
      (startJob 5 (newJob "demo"))).result = none := by
  have h1 : Step initState
      ⟨[("A", newJob "demo")], ["A"], ["A"], none, ["A"], []⟩ :=
    Step.enqueue initState "A" "demo" rfl
  have h2 : Step (⟨[("A", newJob "demo")], ["A"], ["A"], none, ["A"], []⟩ :
      SysState)
      ⟨[("A", startJob 5 (newJob "demo"))], ["A"], [], some "A", ["A"], ["A"]⟩ :=
    Step.start _ "A" [] 5 rfl rfl
  have h3 : Step (⟨[("A", startJob 5 (newJob "demo"))], ["A"], [], some "A",
      ["A"], ["A"]⟩ : SysState)
      ⟨[("A", finishJobErr (buildFailureMsg "['npm', 'run', 'build']" 1)
          (startJob 5 (newJob "demo")))], [], [], none, ["A"], ["A"]⟩ :=
    Step.finishErr _ "A" (buildFailureMsg "['npm', 'run', 'build']" 1) rfl
  exact (error_job_no_result_download_500 _
    (Relation.ReflTransGen.tail
      (Relation.ReflTransGen.tail
        (Relation.ReflTransGen.tail Relation.ReflTransGen.refl h1) h2) h3)
    "A" _ (List.mem_singleton.mpr rfl) rfl).1

/-- C9 counterexample: the claimed running-job formula omits the clamp of
progress to at most 99.  For a running job with progress 100 (reachable:
the pipeline reports 100 just before the worker marks the task done),
elapsed 990 and empty history, the code computes
`max 1 (990·(100/99) − 990) = 10`, while the claimed
`max 1 (elapsed·(100/progress) − elapsed)` is `max 1 0 = 1`. -/
theorem eta_running_clamp_counterexample :
    eta_for [("A", ⟨"demo", .running, 100, "", some 10, none, none⟩)]
        [] [] 1000 "A" = 10 ∧
    max (1 : ℚ) ((1000 - 10) * (100 / 100) - (1000 - 10)) = 1 ∧
    eta_for [("A", ⟨"demo", .running, 100, "", some 10, none, none⟩)]
        [] [] 1000 "A" ≠
      max (1 : ℚ) ((1000 - 10) * (100 / 100) - (1000 - 10)) := by
  have h1 : eta_for [("A", ⟨"demo", .running, 100, "", some 10, none, none⟩)]
      [] [] 1000 "A" = 10 := by
    unfold eta_for findJob
    norm_num [List.find?, truthyTime, avg_duration]
  have h2 : max (1 : ℚ) ((1000 - 10) * (100 / 100) - (1000 - 10)) = 1 := by
    norm_num
  exact ⟨h1, h2, by rw [h1, h2]; norm_num⟩

lemma eta_for_eq_of_findJob {ts : List (String × Job)} {pending : List String}
    {ds : List ℚ} {now : ℚ} {id : String} {t : Job}
    (hf : findJob ts id = some t) :
    eta_for ts pending ds now id =
      (if t.status = .running ∧ truthyTime t.startedAt = true then
        if max 0 (min 99 t.progress) ≤ 1 / 10 then
          max 5 (avg_duration ds - (now - t.startedAt.getD 0))
        else
          max 1 ((now - t.startedAt.getD 0) *
            (100 / max 0 (min 99 t.progress)) - (now - t.startedAt.getD 0))
      else if t.status = .queued then
        max 5 ((queue_position ts pending id : ℚ) * avg_duration ds)
      else 0) := by
  unfold eta_for
  rw [hf]

lemma queue_position_eq_of_findJob {ts : List (String × Job)}
    {pending : List String} {id : String} {t : Job}
    (hf : findJob ts id = some t) :
    queue_position ts pending id =
      if t.status = .running then 0
      else (((pending.indexOf? id).getD 0 : Nat) : Int) +
        (if ts.any (fun e => e.2.status == .running) then 1 else 0) := by
  unfold queue_position
  rw [hf]

/-- C9 amended: the ETA of a running job with a (truthy) start time uses
the progress clamped to `[0, 99]`: when the clamped progress is ≤ 0.1 it
is `max 5 (avg − elapsed)`, otherwise
`max 1 (elapsed·(100/clamped) − elapsed)`; a queued job's ETA is
`max 5 (queue_position · avg)`, where the queue position of a pending
queued job is its 0-based index in `PENDING` plus 1 if any job is
running; terminal jobs get 0; the average duration is 180 on an empty
history and the mean otherwise, over a rolling history that never exceeds
20 entries. -/
theorem eta_formula_spec (ts : List (String × Job)) (pending : List String)
    (ds : List ℚ) (now : ℚ) (id : String) (t : Job)
    (hf : findJob ts id = some t) :
    (t.status = .running → truthyTime t.startedAt = true →
      max 0 (min 99 t.progress) ≤ 1 / 10 →
      eta_for ts pending ds now id =
        max 5 (avg_duration ds - (now - t.startedAt.getD 0))) ∧
    (t.status = .running → truthyTime t.startedAt = true →
      ¬ max 0 (min 99 t.progress) ≤ 1 / 10 →
      eta_for ts pending ds now id =
        max 1 ((now - t.startedAt.getD 0) *
          (100 / max 0 (min 99 t.progress)) - (now - t.startedAt.getD 0))) ∧
    (t.status = .queued →
      eta_for ts pending ds now id =
        max 5 ((queue_position ts pending id : ℚ) * avg_duration ds)) ∧
    (t.status = .done ∨ t.status = .error →
      eta_for ts pending ds now id = 0) ∧
    (t.status = .queued →
      queue_position ts pending id =
        (((pending.indexOf? id).getD 0 : Nat) : Int) +
          (if ts.any (fun e => e.2.status == .running) then 1 else 0)) ∧
    (ds = [] → avg_duration ds = 180) ∧
    (ds ≠ [] → avg_duration ds = ds.sum / ds.length) ∧
    (∀ d : ℚ, (pushDuration ds d).length ≤ 20) := by
  refine ⟨?_, ?_, ?_, ?_, ?_, ?_, ?_, ?_⟩
  · intro hr ht hp
    rw [eta_for_eq_of_findJob hf, if_pos ⟨hr, ht⟩, if_pos hp]
  · intro hr ht hp
    rw [eta_for_eq_of_findJob hf, if_pos ⟨hr, ht⟩, if_neg hp]
  · intro hq
    rw [eta_for_eq_of_findJob hf,
      if_neg (by rw [hq]; rintro ⟨h, _⟩; cases h), if_pos hq]
  · intro hde
    rw [eta_for_eq_of_findJob hf,
      if_neg (by rcases hde with h | h <;> rw [h] <;> rintro ⟨hh, _⟩ <;> cases hh),
      if_neg (by rcases hde with h | h <;> rw [h] <;> intro hh <;> cases hh)]
  · intro hq
    rw [queue_position_eq_of_findJob hf,
      if_neg (by rw [hq]; intro h; cases h)]
  · intro h
    rw [h]
    rfl
  · intro h
    unfold avg_duration
    rw [if_neg (by simpa [List.length_eq_zero] using h)]
  · intro d
    simp only [pushDuration, List.length_drop]
    omega

/-- Witness for C9 amended: a queued job with an empty history gets
`max 5 (position · 180)`. -/
theorem eta_formula_spec_witness :
    eta_for [("A", ⟨"demo", .queued, 0, "", none, none, none⟩)] ["A"] [] 0 "A" =
      max 5 ((queue_position
        [("A", ⟨"demo", .queued, 0, "", none, none, none⟩)] ["A"] "A" : ℚ) *
          avg_duration []) :=
  (eta_formula_spec [("A", ⟨"demo", .queued, 0, "", none, none, none⟩)]
    ["A"] [] 0 "A" ⟨"demo", .queued, 0, "", none, none, none⟩ rfl).2.2.1 rfl

/-- C10: the status endpoint reports progress `0.0` for every job whose
state is not `running` — the stored progress field is ignored, so a
completed (`done`) job is reported with progress 0 rather than 100, and
the same holds for `queued` and `error` jobs. -/
theorem status_progress_zero_unless_running (ts : List (String × Job))
    (pending : List String) (ds : List ℚ) (now : ℚ) (id : String) (t : Job)
    (hf : findJob ts id = some t) (hnr : t.status ≠ .running) :
    task_status ts pending ds now id =
      some ⟨t.status, queue_position ts pending id, 0, t.message,
        eta_for ts pending ds now id⟩ := by
  unfold task_status
  rw [hf]
  simp only [Option.map_some', Option.some.injEq]
  rw [if_neg hnr]

/-- Witness for C10: a `done` job stored with progress 100 is reported
with progress 0. -/
theorem status_progress_zero_unless_running_witness :
    task_status
        [("A", ⟨"demo", .done, 100, "Concluído", some 1, some "z", none⟩)]
        [] [] 3 "A" =
      some ⟨.done,
        queue_position
          [("A", ⟨"demo", .done, 100, "Concluído", some 1, some "z", none⟩)]
          [] "A", 0, "Concluído",
        eta_for [("A", ⟨"demo", .done, 100, "Concluído", some 1, some "z", none⟩)]
          [] [] 3 "A"⟩ :=
  status_progress_zero_unless_running
    [("A", ⟨"demo", .done, 100, "Concluído", some 1, some "z", none⟩)]
    [] [] 3 "A" ⟨"demo", .done, 100, "Concluído", some 1, some "z", none⟩
    rfl (by decide)

end LovCp

